import Mathlib

/-!
# Verification of `genome.py` (transposable-elements)

Shallow embedding of the two genome realizations in `src/src/genome.py`:
`ListGenome` (flat Python list) and `LinkedListGenome` (circular doubly
linked list).  Python machine state is made explicit:

* a Python `list` becomes a Lean `List`; indexing `l[i]` with Python's
  negative-index wraparound is `pyGet`, and slice assignment `l[i:i] = xs`
  is `sliceInsert`;
* the insertion-ordered Python `dict` used for `active_TEs`/`inactive_TEs`
  becomes an insertion-ordered association list with `dget`/`dset`/`dpop`;
* the doubly linked `DoublyLinkedListSequence` is modelled by the list of
  its elements in ring order: `get_link_at_index` (which rejects negative
  indices) is `seqGet`, and `insert_list_after_link` of a fresh chain at a
  located link is a take/append/drop splice.  The `TE.seq` field of the
  Python code is not kept in the model: after `insert_list_after_link` it
  only aliases nodes of the genome and is never read again.
* exceptions (`IndexError`, `KeyError`, the `AttributeError` raised by
  `insert_list_after_link` on an empty chain, `ZeroDivisionError` from
  `% 0`, and a `TypeError` from using `None` as an id) are an `Except`
  result paired with the state at the moment of the raise, so partially
  performed mutations are preserved exactly as in Python.

Integers are Lean `Int` (Python ints are unbounded); Python `%` on ints
with a positive modulus agrees with `Int.emod`.
-/

/-- The Python exception kinds the two realizations can raise. -/
inductive PyErr where
  | indexError
  | keyError
  | attributeError
  | zeroDivisionError
  | typeError
deriving DecidableEq

deriving instance DecidableEq for Except

/-- Resolve a Python index `i` into a list of length `n`:
nonnegative indices are used as-is, indices in `[-n, 0)` wrap to `n + i`,
anything else is out of range. -/
def pyResolve (n : Nat) (i : Int) : Option Nat :=
  if 0 ≤ i ∧ i < (n : Int) then some i.toNat
  else if -(n : Int) ≤ i ∧ i < 0 then some (i + (n : Int)).toNat
  else none

/-- Python `l[i]` (with negative-index wraparound). -/
def pyGet (l : List α) (i : Int) : Option α :=
  (pyResolve l.length i).bind fun j => l[j]?

/-- Python `l[i] = a` (with negative-index wraparound); `none` models the
`IndexError` raise. -/
def pySet (l : List α) (i : Int) (a : α) : Option (List α) :=
  (pyResolve l.length i).map fun j => l.set j a

/-- The index at which Python `l[i:i] = xs` splices, for a list of length
`n`: slice bounds are clamped into `[0, n]`. -/
def slicePos (n : Nat) (i : Int) : Nat :=
  if i < 0 then (i + (n : Int)).toNat else min i.toNat n

/-- Python slice assignment `l[i:i] = xs`. -/
def sliceInsert (l : List α) (i : Int) (xs : List α) : List α :=
  l.take (slicePos l.length i) ++ xs ++ l.drop (slicePos l.length i)

/-- `DoublyLinkedListSequence.get_element_at_index`: walks from the head,
rejecting negative indices and indices past the ring
(`raise IndexError`): no Python-style negative wraparound here. -/
def seqGet (l : List α) (i : Int) : Option α :=
  if 0 ≤ i ∧ i < (l.length : Int) then l[i.toNat]? else none

/-! ## Insertion-ordered dictionaries (Python `dict` with `Int` keys) -/

/-- A dict entry: key, then the stored `(start, length)` pair. -/
abbrev DEntry := Int × Int × Int

/-- `d[k]`, `none` for a `KeyError`. -/
def dget : List DEntry → Int → Option (Int × Int)
  | [], _ => none
  | e :: d, k => if e.1 = k then some e.2 else dget d k

/-- `d[k] = v`: replace in place if the key is present (keeping its
position in the insertion order), else append. -/
def dset : List DEntry → Int → Int × Int → List DEntry
  | [], k, v => [(k, v)]
  | e :: d, k, v => if e.1 = k then (k, v) :: d else e :: dset d k v

/-- `d.pop(k)`: remove the entry for `k` (keys are unique in a Python
dict, so removing the first occurrence is exact). -/
def dpop : List DEntry → Int → List DEntry
  | [], _ => []
  | e :: d, k => if e.1 = k then d else e :: dpop d k

/-! ## `ListGenome` -/

/-- The state of a `ListGenome`: `genome` holds `(symbol, id)` pairs
exactly as the Python tuples, `active_TEs`/`inactive_TEs` are the two
dicts mapping a TE id to `(start, length)`, and `number_of_TEs` is the id
counter. -/
structure ListGenome where
  genome : List (Char × Int)
  active_TEs : List DEntry
  inactive_TEs : List DEntry
  number_of_TEs : Int
deriving DecidableEq

/-- `ListGenome.__init__`: `n` positions `('-', 0)`, empty dicts, counter
zero. -/
def ListGenome.init (n : Nat) : ListGenome :=
  ⟨List.replicate n ('-', 0), [], [], 0⟩

/-- The loop of `ListGenome.disable_te`:
`for n in range(start, start+length): self.genome[n] = ('x', id)`.
Each assignment can raise `IndexError`; on a raise the genome keeps the
assignments already done. -/
def setRangeL (g : List (Char × Int)) (start : Int) (cnt : Nat) (id : Int) :
    Except PyErr Unit × List (Char × Int) :=
  match cnt with
  | 0 => (.ok (), g)
  | c + 1 =>
    match pySet g start ('x', id) with
    | none => (.error .indexError, g)
    | some g2 => setRangeL g2 (start + 1) c id

/-- `ListGenome.disable_te`.  Looking up `active_TEs[te]` raises
`KeyError` for an id that is not an *active* key (inactive ids included);
otherwise the TE's range is overwritten with `('x', id)` and the record
moves from `active_TEs` to `inactive_TEs`. -/
def ListGenome.disable_te (s : ListGenome) (te : Int) :
    Except PyErr Unit × ListGenome :=
  match dget s.active_TEs te with
  | none => (.error .keyError, s)
  | some (st, ln) =>
    match setRangeL s.genome st ln.toNat te with
    | (.error e, g2) => (.error e, { s with genome := g2 })
    | (.ok _, g2) =>
      (.ok (), { s with
        genome := g2,
        active_TEs := dpop s.active_TEs te,
        inactive_TEs := dset s.inactive_TEs te (st, ln) })

/-- `ListGenome.insert_te`.  The id counter is incremented *before* the
`self.genome[pos]` bounds check, so a rejected call keeps the bump; a
colliding active TE is disabled via `disable_te` before the splice; after
the splice only the *active* records with `start > pos` are shifted. -/
def ListGenome.insert_te (s : ListGenome) (pos len : Int) :
    Except PyErr Int × ListGenome :=
  let id := s.number_of_TEs + 1
  let s1 : ListGenome := { s with number_of_TEs := id }
  match pyGet s1.genome pos with
  | none => (.error .indexError, s1)
  | some (c, tid) =>
    let step : Except PyErr Unit × ListGenome :=
      if c = 'A' then ListGenome.disable_te s1 tid else (.ok (), s1)
    match step with
    | (.error e, s2) => (.error e, s2)
    | (.ok _, s2) =>
      let g2 := sliceInsert s2.genome pos (List.replicate len.toNat ('A', id))
      let act1 := dset s2.active_TEs id (pos, len)
      let act2 := act1.map fun e =>
        if e.2.1 > pos then (e.1, e.2.1 + len, e.2.2) else e
      (.ok id, { s2 with genome := g2, active_TEs := act2 })

/-- `ListGenome.copy_te`.  Reads `active_TEs[te]` (so a non-active id
raises `KeyError`), computes `(start + offset) % len(self.genome)` and
delegates to `insert_te`.  Python `%` by zero raises
`ZeroDivisionError`. -/
def ListGenome.copy_te (s : ListGenome) (te offset : Int) :
    Except PyErr Int × ListGenome :=
  match dget s.active_TEs te with
  | none => (.error .keyError, s)
  | some (st, ln) =>
    if s.genome.length = 0 then (.error .zeroDivisionError, s)
    else ListGenome.insert_te s ((st + offset) % (s.genome.length : Int)) ln

/-- `ListGenome.active_tes`: the keys of the `active_TEs` dict in
insertion order. -/
def ListGenome.active_tes (s : ListGenome) : List Int :=
  s.active_TEs.map (·.1)

/-- `ListGenome.__len__`. -/
def ListGenome.size (s : ListGenome) : Nat := s.genome.length

/-- `ListGenome.__str__`: the symbols in order. -/
def ListGenome.render (s : ListGenome) : List Char := s.genome.map (·.1)

/-! ## `LinkedListGenome` -/

/-- A `Nucleotide` object: Python's `id` is `None` (here `none`) at the
initial `'-'` positions and an `int` otherwise. -/
structure Nucleotide where
  symbol : Char
  id : Option Int
deriving DecidableEq

/-- A TE's `status` string, `'active'` or `'inactive'`. -/
inductive Status where
  | active
  | inactive
deriving DecidableEq

/-- A `TE` record object (the `seq` field is omitted, see the header). -/
structure TErec where
  id : Int
  pos : Int
  length : Int
  status : Status
deriving DecidableEq

/-- The state of a `LinkedListGenome`: the ring contents in order, and
the `tes` list of all TE record objects (index `i` holds id `i+1`). -/
structure LinkedListGenome where
  genome : List Nucleotide
  tes : List TErec
deriving DecidableEq

/-- `LinkedListGenome.__init__`: `n` fresh `Nucleotide('-', None)`.  (The
constructor of `DoublyLinkedListSequence` actually links the given
elements in reverse order, because `head.prev` is never updated; the
elements here are identical, so the reversal is invisible and the model
keeps `replicate`.) -/
def LinkedListGenome.init (n : Nat) : LinkedListGenome :=
  ⟨List.replicate n ⟨'-', none⟩, []⟩

/-- The collision loop of `LinkedListGenome.insert_te`:
`self.genome.set_at_index(index, Nucleotide('x', id_old))` over the old
TE's range — it *replaces* the nucleotide, stamping `id_old`. -/
def setXRangeK (g : List Nucleotide) (start : Int) (cnt : Nat) (idOld : Int) :
    Except PyErr Unit × List Nucleotide :=
  match cnt with
  | 0 => (.ok (), g)
  | c + 1 =>
    if 0 ≤ start ∧ start < (g.length : Int) then
      setXRangeK (g.set start.toNat ⟨'x', some idOld⟩) (start + 1) c idOld
    else (.error .indexError, g)

/-- The loop of `LinkedListGenome.disable_te`:
`self.genome.get_element_at_index(n).symbol = 'x'` — it mutates the
symbol in place and *keeps* the nucleotide's id. -/
def disRangeK (g : List Nucleotide) (start : Int) (cnt : Nat) :
    Except PyErr Unit × List Nucleotide :=
  match cnt with
  | 0 => (.ok (), g)
  | c + 1 =>
    match seqGet g start with
    | none => (.error .indexError, g)
    | some nu => disRangeK (g.set start.toNat ⟨'x', nu.id⟩) (start + 1) c

/-- `LinkedListGenome.insert_te`.  Observable control flow of the Python
code: check `genome[pos]` (raising `IndexError` for `pos` outside
`[0, len)`); on a collision, look up `self.tes[id_old - 1]` (Python
negative indexing!), overwrite the old range, flip the record's status;
locate the link (`pos - 1` cannot fail once `genome[pos]` succeeded);
`insert_list_after_link` with an *empty* chain — i.e. `length <= 0` —
dereferences `None` and raises `AttributeError`, after the collision
mutation; otherwise splice at `pos`, append the record, and shift the
`pos` of *every* record (active and inactive) strictly beyond `pos`. -/
def LinkedListGenome.insert_te (s : LinkedListGenome) (pos len : Int) :
    Except PyErr Int × LinkedListGenome :=
  let id : Int := (s.tes.length : Int) + 1
  match seqGet s.genome pos with
  | none => (.error .indexError, s)
  | some nuc =>
    let col : Except PyErr Unit × LinkedListGenome :=
      if nuc.symbol = 'A' then
        match nuc.id with
        | none => (.error .typeError, s)
        | some idOld =>
          match pyResolve s.tes.length (idOld - 1) with
          | none => (.error .indexError, s)
          | some j =>
            match s.tes[j]? with
            | none => (.error .indexError, s)
            | some teOld =>
              match setXRangeK s.genome teOld.pos teOld.length.toNat idOld with
              | (.error e, g2) => (.error e, { s with genome := g2 })
              | (.ok _, g2) =>
                (.ok (), { genome := g2,
                           tes := s.tes.set j { teOld with status := .inactive } })
      else (.ok (), s)
    match col with
    | (.error e, s2) => (.error e, s2)
    | (.ok _, s2) =>
      if len < 1 then (.error .attributeError, s2)
      else
        let g2 := s2.genome.take pos.toNat
          ++ List.replicate len.toNat ⟨'A', some id⟩
          ++ s2.genome.drop pos.toNat
        let tes1 := s2.tes ++ [⟨id, pos, len, .active⟩]
        let tes2 := tes1.map fun r =>
          if r.pos > pos then { r with pos := r.pos + len } else r
        (.ok id, { genome := g2, tes := tes2 })

/-- `LinkedListGenome.disable_te`: `self.tes[te-1]` (Python negative
indexing), then flip the symbols over the record's range — with *no*
status check, so an inactive record's stale range is overwritten too —
and set the status. -/
def LinkedListGenome.disable_te (s : LinkedListGenome) (te : Int) :
    Except PyErr Unit × LinkedListGenome :=
  match pyResolve s.tes.length (te - 1) with
  | none => (.error .indexError, s)
  | some j =>
    match s.tes[j]? with
    | none => (.error .indexError, s)
    | some r =>
      match disRangeK s.genome r.pos r.length.toNat with
      | (.error e, g2) => (.error e, { s with genome := g2 })
      | (.ok _, g2) =>
        (.ok (), { genome := g2, tes := s.tes.set j { r with status := .inactive } })

/-- `LinkedListGenome.copy_te`: `self.tes[te-1]`, return `None` for an
inactive record, else `(offset + pos) % len(self.genome)` and delegate to
`insert_te`. -/
def LinkedListGenome.copy_te (s : LinkedListGenome) (te offset : Int) :
    Except PyErr (Option Int) × LinkedListGenome :=
  match pyResolve s.tes.length (te - 1) with
  | none => (.error .indexError, s)
  | some j =>
    match s.tes[j]? with
    | none => (.error .indexError, s)
    | some r =>
      if r.status = .active then
        if s.genome.length = 0 then (.error .zeroDivisionError, s)
        else
          let res := LinkedListGenome.insert_te s
            ((offset + r.pos) % (s.genome.length : Int)) r.length
          (res.1.map some, res.2)
      else (.ok none, s)

/-- `LinkedListGenome.active_tes`: ids of the active records in `tes`
order. -/
def LinkedListGenome.active_tes (s : LinkedListGenome) : List Int :=
  (s.tes.filter fun r => r.status = Status.active).map (·.id)

/-- `LinkedListGenome.__len__`. -/
def LinkedListGenome.size (s : LinkedListGenome) : Nat := s.genome.length

/-- `LinkedListGenome.__str__`. -/
def LinkedListGenome.render (s : LinkedListGenome) : List Char :=
  s.genome.map (·.symbol)

/-! ## Operation traces -/

/-- One call to a mutating operation of the shared `Genome` interface. -/
inductive Op where
  | insert (pos len : Int)
  | copy (te offset : Int)
  | disable (te : Int)
deriving DecidableEq

/-- A step of `ListGenome`, with the Python return value coerced into the
common `int | None` observation type (`insert_te`/`copy_te` return an
`int`, `disable_te` returns `None`). -/
def ListGenome.step (s : ListGenome) (op : Op) :
    Except PyErr (Option Int) × ListGenome :=
  match op with
  | .insert p l => let r := s.insert_te p l; (r.1.map some, r.2)
  | .copy t o => let r := s.copy_te t o; (r.1.map some, r.2)
  | .disable t => let r := s.disable_te t; (r.1.map fun _ => none, r.2)

/-- A step of `LinkedListGenome` (same observation type). -/
def LinkedListGenome.step (s : LinkedListGenome) (op : Op) :
    Except PyErr (Option Int) × LinkedListGenome :=
  match op with
  | .insert p l => let r := s.insert_te p l; (r.1.map some, r.2)
  | .copy t o => s.copy_te t o
  | .disable t => let r := s.disable_te t; (r.1.map fun _ => none, r.2)

/-- The restricted validity used for the equivalence and the invariants:
an insertion at a position inside `[0, len)` with length at least 1, and
`copy_te`/`disable_te` only on a currently *active* id. -/
def ListGenome.validOp (s : ListGenome) : Op → Bool
  | .insert pos len =>
    decide (0 ≤ pos) && decide (pos < (s.genome.length : Int)) && decide (1 ≤ len)
  | .copy te _ => s.active_tes.contains te
  | .disable te => s.active_tes.contains te

/-- Restricted validity on the linked realization (same conditions). -/
def LinkedListGenome.validOp (s : LinkedListGenome) : Op → Bool
  | .insert pos len =>
    decide (0 ≤ pos) && decide (pos < (s.genome.length : Int)) && decide (1 ≤ len)
  | .copy te _ => s.active_tes.contains te
  | .disable te => s.active_tes.contains te

/-- Run a trace of operations on a `ListGenome`, requiring each operation
to be valid in the state where it runs; returns the list of per-call
results and the final state. -/
def ListGenome.runValid (s : ListGenome) :
    List Op → Option (List (Except PyErr (Option Int)) × ListGenome)
  | [] => some ([], s)
  | op :: ops =>
    if s.validOp op then
      let r := s.step op
      (r.2.runValid ops).map fun q => (r.1 :: q.1, q.2)
    else none

/-- Run a trace on a `LinkedListGenome` under the same validity. -/
def LinkedListGenome.runValid (s : LinkedListGenome) :
    List Op → Option (List (Except PyErr (Option Int)) × LinkedListGenome)
  | [] => some ([], s)
  | op :: ops =>
    if s.validOp op then
      let r := s.step op
      (r.2.runValid ops).map fun q => (r.1 :: q.1, q.2)
    else none

/-- Run a trace on a `ListGenome` accumulating the total number of
spliced-in positions: each insertion counts its length, each (successful)
copy counts the copied record's length. -/
def ListGenome.runGain (s : ListGenome) :
    List Op → Option (Nat × ListGenome)
  | [] => some (0, s)
  | op :: ops =>
    if s.validOp op then
      let g : Nat := match op with
        | .insert _ l => l.toNat
        | .copy t _ =>
          (((dget s.active_TEs t).map fun v : Int × Int => v.2).getD 0).toNat
        | .disable _ => 0
      ((s.step op).2.runGain ops).map fun q => (g + q.1, q.2)
    else none

/-- Same accumulation on the linked realization (the copied record is
`tes[t-1]`). -/
def LinkedListGenome.runGain (s : LinkedListGenome) :
    List Op → Option (Nat × LinkedListGenome)
  | [] => some (0, s)
  | op :: ops =>
    if s.validOp op then
      let g : Nat := match op with
        | .insert _ l => l.toNat
        | .copy t _ =>
          (((pyResolve s.tes.length (t - 1)).bind fun j =>
            (s.tes[j]?).map fun r : TErec => r.length).getD 0).toNat
        | .disable _ => 0
      ((s.step op).2.runGain ops).map fun q => (g + q.1, q.2)
    else none

def c9GL : List (Char × Int) :=
  [('-', 0), ('-', 0), ('x', 1), ('A', 2), ('A', 2), ('x', 1), ('x', 1),
   ('-', 0), ('-', 0), ('-', 0), ('-', 0), ('-', 0), ('-', 0), ('-', 0),
   ('-', 0)]

def c9GK : List Nucleotide :=
  [⟨'-', none⟩, ⟨'-', none⟩, ⟨'x', some 1⟩, ⟨'A', some 2⟩, ⟨'A', some 2⟩,
   ⟨'x', some 1⟩, ⟨'x', some 1⟩, ⟨'-', none⟩, ⟨'-', none⟩, ⟨'-', none⟩,
   ⟨'-', none⟩, ⟨'-', none⟩, ⟨'-', none⟩, ⟨'-', none⟩, ⟨'-', none⟩]

def c4GL : List (Char × Int) :=
  [('-', 0), ('-', 0), ('A', 1), ('A', 1), ('A', 1), ('-', 0), ('-', 0),
   ('-', 0), ('-', 0), ('-', 0), ('-', 0), ('-', 0), ('-', 0)]

def c4GK : List Nucleotide :=
  [⟨'-', none⟩, ⟨'-', none⟩, ⟨'A', some 1⟩, ⟨'A', some 1⟩, ⟨'A', some 1⟩,
   ⟨'-', none⟩, ⟨'-', none⟩, ⟨'-', none⟩, ⟨'-', none⟩, ⟨'-', none⟩,
   ⟨'-', none⟩, ⟨'-', none⟩, ⟨'-', none⟩]

/-! ## Concrete divergences -/

/-- C2: `copy_te` on a known but Inactive TE.  On `ListGenome` the claim
fails: after `insert_te(5,10)`, `insert_te(10,10)` (which disables TE 1),
the call `copy_te(1, 0)` reads `active_TEs[1]` and raises `KeyError`
instead of returning `None` — contradicting the method's own docstring
("If te is not active, return None").  On `LinkedListGenome` the claim
holds at the same input: the call returns `None` and leaves the state
unmodified. -/
theorem c2_listGenome_copy_inactive_raises :
    (let s := (((ListGenome.init 20).insert_te 5 10).2.insert_te 10 10).2
     dget s.inactive_TEs 1 = some (5, 10) ∧
     (s.copy_te 1 0).1 = .error .keyError ∧ (s.copy_te 1 0).2 = s)
    ∧
    (let t := (((LinkedListGenome.init 20).insert_te 5 10).2.insert_te 10 10).2
     t.tes[0]? = some ⟨1, 5, 10, .inactive⟩ ∧
     (t.copy_te 1 0).1 = .ok none ∧ (t.copy_te 1 0).2 = t) := by
  decide

/-- C6: idempotent disable.  On `ListGenome` the claim fails: after
creating TE 1 and disabling it once, a second `disable_te(1)` raises
`KeyError` (the id is no longer a key of `active_TEs`) instead of being a
no-op — contradicting the docstring ("Inactive TEs are already inactive,
so there is no need to do anything for those").  Moreover on
`LinkedListGenome`, `disable_te` on an already-Inactive TE is not even a
state no-op: after TE 1 (range `[0,3)`) is disabled and TE 2 is inserted
at position 1 inside that stale range, `disable_te(1)` overwrites TE 2's
Active symbols with `'x'`, changing the rendered genome without any
failure. -/
theorem c6_disable_not_idempotent :
    (let s := (((ListGenome.init 10).insert_te 0 3).2.disable_te 1).2
     (s.disable_te 1).1 = .error .keyError ∧ (s.disable_te 1).2 = s)
    ∧
    (let t := ((((LinkedListGenome.init 10).insert_te 0 3).2.disable_te 1).2.insert_te 1 2).2
     t.render = "xAAxx----------".data ∧
     (t.disable_te 1).1 = .ok () ∧
     (t.disable_te 1).2.render = "xxxxx----------".data ∧
     (t.disable_te 1).2 ≠ t) := by
  decide

/-- C3, counterexample: precondition violations are *not* uniformly
rejected with the corresponding error and an unmodified state.
On a fresh `ListGenome` of length 5: (1) `insert_te(0, 0)` — an
insertion length `≤ 0` — raises nothing and happily allocates TE 1 with
a length-0 record; (2) `insert_te(7, 2)` does raise `IndexError`, but
the id counter has already been incremented from 0 to 1; (3)
`insert_te(-1, 2)` — a position outside `[0, 5)` — is accepted (Python
negative indexing) and records start `-1`; (4) on `LinkedListGenome`,
`insert_te(0, 0)` fails with `AttributeError`, not an index error. -/
theorem c3_precondition_violations_counterexample :
    (((ListGenome.init 5).insert_te 0 0).1 = .ok 1 ∧
     ((ListGenome.init 5).insert_te 0 0).2.active_TEs = [(1, 0, 0)])
    ∧ (((ListGenome.init 5).insert_te 7 2).1 = .error .indexError ∧
       ((ListGenome.init 5).insert_te 7 2).2.number_of_TEs = 1)
    ∧ (((ListGenome.init 5).insert_te (-1) 2).1 = .ok 1 ∧
       ((ListGenome.init 5).insert_te (-1) 2).2.active_TEs = [(1, -1, 2)])
    ∧ ((LinkedListGenome.init 5).insert_te 0 0).1 = .error .attributeError := by
  decide

/-- C1, counterexample: a trace in which every call satisfies the stated
preconditions (`copy_te` on a TE id whose record exists is legal — on an
Inactive id the spec prescribes returning no value), yet the two
realizations disagree: after `insert_te(0,3)`; `disable_te(1)`, the call
`copy_te(1, 0)` raises `KeyError` on `ListGenome` but returns `None` on
`LinkedListGenome`. -/
theorem c1_observational_equivalence_counterexample :
    (let s := (((ListGenome.init 10).insert_te 0 3).2.disable_te 1).2
     let t := (((LinkedListGenome.init 10).insert_te 0 3).2.disable_te 1).2
     dget s.inactive_TEs 1 = some (0, 3) ∧
     t.tes[0]? = some ⟨1, 0, 3, .inactive⟩ ∧
     s.render = t.render ∧
     (s.copy_te 1 0).1 = .error .keyError ∧
     (t.copy_te 1 0).1 = .ok none) := by
  decide

/-- C5, counterexample: on `LinkedListGenome` a state with two distinct
Active TE records whose ranges intersect is reachable by operations that
all meet the spec's preconditions.  Trace on an initial length of 10:
`insert_te(0,3)` (TE 1), `disable_te(1)`, `insert_te(1,2)` (TE 2, legal
since position 1 reads `'x'`), `disable_te(1)` — per the spec a no-op on
an Inactive id, but the code rewrites TE 1's stale range `[0,3)`,
overwriting TE 2's symbols — then `insert_te(2,2)` (TE 3 at a position
that now wrongly reads `'x'`).  Afterwards TE 2 (range `[1,3)`) and TE 3
(range `[2,4)`) are both Active and share position 2.  Each `insert_te`
position was inside `[0, length)` with length `≥ 1`, and each
`disable_te` referenced an existing record. -/
theorem c5_overlapping_actives_counterexample :
    (let t1 := LinkedListGenome.init 10
     let t2 := (t1.insert_te 0 3).2
     let t3 := (t2.disable_te 1).2
     let t4 := (t3.insert_te 1 2).2
     let t5 := (t4.disable_te 1).2
     let t6 := (t5.insert_te 2 2).2
     t1.size = 10 ∧ t2.size = 13 ∧ t3.size = 13 ∧ t4.size = 15 ∧ t5.size = 15 ∧
     t2.tes.length = 1 ∧ t4.tes.length = 2 ∧
     t6.tes = [⟨1, 0, 3, .inactive⟩, ⟨2, 1, 2, .active⟩, ⟨3, 2, 2, .active⟩] ∧
     (1 : Int) ≤ 2 ∧ (2 : Int) < 1 + 2 ∧ (2 : Int) ≤ 2 ∧ (2 : Int) < 2 + 2) := by
  decide

/-- C9, counterexample: `ListGenome.insert_te` shifts only the *Active*
records.  After `insert_te(10,5)` (TE 1) and `disable_te(1)`, the record
of TE 1 sits in `inactive_TEs` with start 10; a further `insert_te(0,3)`
(strictly before it, `start > pos`) leaves its start at 10 instead of
adding the inserted length 3 as the claim requires. -/
theorem c9_inactive_start_not_shifted :
    (let s := (((ListGenome.init 20).insert_te 10 5).2.disable_te 1).2
     dget s.inactive_TEs 1 = some (10, 5) ∧
     (s.insert_te 0 3).1 = .ok 2 ∧
     dget (s.insert_te 0 3).2.inactive_TEs 1 = some (10, 5) ∧
     (10 : Int) + 3 ≠ 10) := by
  decide

/-- C10: on `LinkedListGenome`, records are looked up as
`self.tes[te - 1]` with Python list indexing, so `te = 0` resolves to
index `-1` — the most recently created TE — and `disable_te 0` /
`copy_te 0` behave exactly as if that last id had been named. -/
theorem c10_te_zero_resolves_to_last (t : LinkedListGenome) (off : Int)
    (h : t.tes ≠ []) :
    t.disable_te 0 = t.disable_te (t.tes.length : Int) ∧
    t.copy_te 0 off = t.copy_te (t.tes.length : Int) off := by
  have hm : 0 < t.tes.length := List.length_pos.mpr h
  have h1 : pyResolve t.tes.length (0 - 1) = some (t.tes.length - 1) := by
    unfold pyResolve
    rw [if_neg (by omega), if_pos (by omega)]
    congr 1
    omega
  have h2 : pyResolve t.tes.length ((t.tes.length : Int) - 1) = some (t.tes.length - 1) := by
    unfold pyResolve
    rw [if_pos (by omega)]
    congr 1
    omega
  constructor
  · unfold LinkedListGenome.disable_te
    rw [h1, h2]
  · unfold LinkedListGenome.copy_te
    rw [h1, h2]

/-- C10, witness: a linked genome of length 8 with one TE; `te = 0`
resolves to TE 1. -/
theorem c10_witness :
    (let t := ((LinkedListGenome.init 8).insert_te 2 3).2
     t.disable_te 0 = t.disable_te (t.tes.length : Int) ∧
     t.copy_te 0 4 = t.copy_te (t.tes.length : Int) 4) :=
  c10_te_zero_resolves_to_last _ 4 (by decide)

/-! ## Error behavior (C3, amended) -/

/-- An index that is `≥ n` or `< -n` resolves to nothing. -/
theorem pyResolve_eq_none {n : Nat} {i : Int} (h : (n : Int) ≤ i ∨ i < -(n : Int)) :
    pyResolve n i = none := by
  unfold pyResolve
  rw [if_neg (by omega), if_neg (by omega)]

/-- C3, amended: the rejections the code actually performs, and what they
leave behind.  For `insert_te`, a position `≥ length` or `< -length`
fails with `IndexError` on `ListGenome` — with the id counter already
incremented but genome, both dicts unchanged — and any position outside
`[0, length)` fails with `IndexError` on `LinkedListGenome` with the
state completely unmodified.  For `disable_te`/`copy_te`, an id that was
never allocated (in no dict) fails with `KeyError` on `ListGenome`,
unmodified; an id `> len(tes)` or `≤ -len(tes)` fails with `IndexError`
on `LinkedListGenome`, unmodified.  A non-positive insertion length is
not validated: `LinkedListGenome` fails with `AttributeError` (here in
the collision-free case, with the state unmodified; a colliding Active TE
would first be disabled), and `ListGenome` accepts it (see the
counterexample). -/
theorem c3_rejected_calls_fail_synchronously
    (s : ListGenome) (t : LinkedListGenome) (pos len te off : Int) (nuc : Nucleotide) :
    (((s.size : Int) ≤ pos ∨ pos < -(s.size : Int)) →
      s.insert_te pos len =
        (.error .indexError, { s with number_of_TEs := s.number_of_TEs + 1 }))
    ∧ (¬ (0 ≤ pos ∧ pos < (t.size : Int)) →
        t.insert_te pos len = (.error .indexError, t))
    ∧ (dget s.active_TEs te = none → dget s.inactive_TEs te = none →
        s.disable_te te = (.error .keyError, s) ∧
        s.copy_te te off = (.error .keyError, s))
    ∧ (((t.tes.length : Int) < te ∨ te ≤ -(t.tes.length : Int)) →
        t.disable_te te = (.error .indexError, t) ∧
        t.copy_te te off = (.error .indexError, t))
    ∧ (seqGet t.genome pos = some nuc → nuc.symbol ≠ 'A' → len < 1 →
        t.insert_te pos len = (.error .attributeError, t)) := by
  refine ⟨fun h => ?_, fun h => ?_, fun h h2 => ?_, fun h => ?_, fun h h2 h3 => ?_⟩
  · have hg : pyGet s.genome pos = none := by
      unfold pyGet
      rw [pyResolve_eq_none (by simpa [ListGenome.size] using h)]
      rfl
    simp only [ListGenome.insert_te, hg]
  · have hg : seqGet t.genome pos = none := by
      unfold seqGet
      rw [if_neg (by simpa [LinkedListGenome.size] using h)]
    simp only [LinkedListGenome.insert_te, hg]
  · constructor
    · simp only [ListGenome.disable_te, h]
    · simp only [ListGenome.copy_te, h]
  · have hr : pyResolve t.tes.length (te - 1) = none :=
      pyResolve_eq_none (by omega)
    constructor
    · simp only [LinkedListGenome.disable_te, hr]
    · simp only [LinkedListGenome.copy_te, hr]
  · simp only [LinkedListGenome.insert_te, h, if_neg h2, if_pos h3]

/-- C3, witness: concrete rejected calls on genomes of length 3 with no
TEs, and a non-positive-length insertion at a `'-'` position. -/
theorem c3_rejected_calls_witness :
    ((ListGenome.init 3).insert_te 5 2 =
      (.error .indexError, { ListGenome.init 3 with number_of_TEs := 1 }))
    ∧ ((LinkedListGenome.init 3).insert_te (-1) 2 =
        (.error .indexError, LinkedListGenome.init 3))
    ∧ ((ListGenome.init 3).disable_te 7 = (.error .keyError, ListGenome.init 3) ∧
       (ListGenome.init 3).copy_te 7 2 = (.error .keyError, ListGenome.init 3))
    ∧ ((LinkedListGenome.init 3).disable_te 7 =
        (.error .indexError, LinkedListGenome.init 3) ∧
       (LinkedListGenome.init 3).copy_te 7 2 =
        (.error .indexError, LinkedListGenome.init 3))
    ∧ ((LinkedListGenome.init 3).insert_te 1 0 =
        (.error .attributeError, LinkedListGenome.init 3)) :=
  ⟨(c3_rejected_calls_fail_synchronously (ListGenome.init 3) (LinkedListGenome.init 3)
      5 2 7 2 ⟨'-', none⟩).1 (by decide),
   (c3_rejected_calls_fail_synchronously (ListGenome.init 3) (LinkedListGenome.init 3)
      (-1) 2 7 2 ⟨'-', none⟩).2.1 (by decide),
   (c3_rejected_calls_fail_synchronously (ListGenome.init 3) (LinkedListGenome.init 3)
      5 2 7 2 ⟨'-', none⟩).2.2.1 (by decide) (by decide),
   (c3_rejected_calls_fail_synchronously (ListGenome.init 3) (LinkedListGenome.init 3)
      5 2 7 2 ⟨'-', none⟩).2.2.2.1 (by decide),
   (c3_rejected_calls_fail_synchronously (ListGenome.init 3) (LinkedListGenome.init 3)
      1 0 7 2 ⟨'-', none⟩).2.2.2.2 (by decide) (by decide) (by decide)⟩

/-! ## Copy wraparound (C8) -/

/-- C8: for both realizations, `copy_te` on an Active TE with any integer
offset delegates to `insert_te` at exactly `(start + offset) % length()`,
where `%` is Python's modulo — i.e. `Int.emod`, which for the positive
modulus `length()` always lands in `[0, length())` and differs from
`start + offset` by a multiple of `length()`, so negative offsets and
positive overflows wrap around the circular genome. -/
theorem c8_copy_wraparound
    (s : ListGenome) (t : LinkedListGenome) (te off st ln : Int) (j : Nat) (r : TErec) :
    (dget s.active_TEs te = some (st, ln) → 0 < s.size →
      s.copy_te te off = s.insert_te ((st + off) % (s.size : Int)) ln ∧
      0 ≤ (st + off) % (s.size : Int) ∧
      (st + off) % (s.size : Int) < (s.size : Int) ∧
      (s.size : Int) ∣ st + off - (st + off) % (s.size : Int))
    ∧ (pyResolve t.tes.length (te - 1) = some j → t.tes[j]? = some r →
       r.status = .active → 0 < t.size →
       t.copy_te te off =
         ((t.insert_te ((off + r.pos) % (t.size : Int)) r.length).1.map some,
          (t.insert_te ((off + r.pos) % (t.size : Int)) r.length).2) ∧
       0 ≤ (off + r.pos) % (t.size : Int) ∧
       (off + r.pos) % (t.size : Int) < (t.size : Int) ∧
       (t.size : Int) ∣ off + r.pos - (off + r.pos) % (t.size : Int)) := by
  simp only [ListGenome.size, LinkedListGenome.size]
  constructor
  · intro h hpos
    have hne : s.genome.length ≠ 0 := hpos.ne'
    have hposZ : (0 : Int) < (s.genome.length : Int) := by exact_mod_cast hpos
    refine ⟨?_, Int.emod_nonneg _ hposZ.ne', Int.emod_lt_of_pos _ hposZ, ?_⟩
    · simp only [ListGenome.copy_te, h, if_neg hne]
    · exact ⟨(st + off) / (s.genome.length : Int), by rw [Int.emod_def]; ring⟩
  · intro h1 h2 h3 hpos
    have hne : t.genome.length ≠ 0 := hpos.ne'
    have hposZ : (0 : Int) < (t.genome.length : Int) := by exact_mod_cast hpos
    refine ⟨?_, Int.emod_nonneg _ hposZ.ne', Int.emod_lt_of_pos _ hposZ, ?_⟩
    · simp only [LinkedListGenome.copy_te, h1, h2, if_pos h3, if_neg hne]
    · exact ⟨(off + r.pos) / (t.genome.length : Int), by rw [Int.emod_def]; ring⟩

/-- C8, witness: a genome of length 13 holding the Active TE 1 at start
2 with length 3; the positive-overflow offset 15 wraps to
`(2+15) % 13 = 4` and the negative offset -5 wraps to `(2-5) % 13 = 10`,
on both realizations. -/
theorem c8_copy_wraparound_witness :
    (let s := ((ListGenome.init 10).insert_te 2 3).2
     s.copy_te 1 15 = s.insert_te 4 3 ∧ ((2 : Int) + 15) % 13 = 4 ∧
     s.copy_te 1 (-5) = s.insert_te 10 3 ∧ ((2 : Int) + -5) % 13 = 10)
    ∧ (let t := ((LinkedListGenome.init 10).insert_te 2 3).2
       t.copy_te 1 15 =
         ((t.insert_te 4 3).1.map some, (t.insert_te 4 3).2) ∧
       t.copy_te 1 (-5) =
         ((t.insert_te 10 3).1.map some, (t.insert_te 10 3).2)) := by
  refine ⟨⟨?_, by decide, ?_, by decide⟩, ?_, ?_⟩
  · have h := (c8_copy_wraparound ((ListGenome.init 10).insert_te 2 3).2
      (LinkedListGenome.init 10) 1 15 2 3 0 ⟨1, 2, 3, .active⟩).1 (by decide) (by decide)
    exact h.1
  · have h := (c8_copy_wraparound ((ListGenome.init 10).insert_te 2 3).2
      (LinkedListGenome.init 10) 1 (-5) 2 3 0 ⟨1, 2, 3, .active⟩).1 (by decide) (by decide)
    exact h.1
  · have h := (c8_copy_wraparound (ListGenome.init 10)
      ((LinkedListGenome.init 10).insert_te 2 3).2 1 15 2 3 0 ⟨1, 2, 3, .active⟩).2
      (by decide) (by decide) (by decide) (by decide)
    exact h.1
  · have h := (c8_copy_wraparound (ListGenome.init 10)
      ((LinkedListGenome.init 10).insert_te 2 3).2 1 (-5) 2 3 0 ⟨1, 2, 3, .active⟩).2
      (by decide) (by decide) (by decide) (by decide)
    exact h.1

/-! ## Index and dictionary lemmas -/

theorem pyResolve_of_nonneg {n : Nat} {i : Int} (h0 : 0 ≤ i) (h1 : i < (n : Int)) :
    pyResolve n i = some i.toNat := by
  unfold pyResolve
  rw [if_pos ⟨h0, h1⟩]

theorem seqGet_eq {l : List α} {i : Int} (h0 : 0 ≤ i) (h1 : i < (l.length : Int)) :
    seqGet l i = l[i.toNat]? := by
  unfold seqGet
  rw [if_pos ⟨h0, h1⟩]

theorem pyGet_eq {l : List α} {i : Int} (h0 : 0 ≤ i) (h1 : i < (l.length : Int)) :
    pyGet l i = l[i.toNat]? := by
  unfold pyGet
  rw [pyResolve_of_nonneg h0 h1]
  rfl

theorem pySet_eq {l : List α} {i : Int} (a : α) (h0 : 0 ≤ i) (h1 : i < (l.length : Int)) :
    pySet l i a = some (l.set i.toNat a) := by
  unfold pySet
  rw [pyResolve_of_nonneg h0 h1]
  rfl

theorem slicePos_eq {n : Nat} {i : Int} (h0 : 0 ≤ i) (h1 : i ≤ (n : Int)) :
    slicePos n i = i.toNat := by
  unfold slicePos
  rw [if_neg (by omega)]
  omega

theorem dget_mem {d : List DEntry} {k : Int} {v : Int × Int}
    (h : dget d k = some v) : (k, v) ∈ d := by
  induction d with
  | nil => simp [dget] at h
  | cons e d ih =>
    by_cases he : e.1 = k
    · rw [dget, if_pos he] at h
      obtain rfl : e.2 = v := by injection h
      subst he
      exact List.mem_cons_self _ _
    · rw [dget, if_neg he] at h
      exact List.mem_cons_of_mem _ (ih h)

theorem dget_eq_none_iff {d : List DEntry} {k : Int} :
    dget d k = none ↔ k ∉ d.map (fun e => e.1) := by
  induction d with
  | nil => simp [dget]
  | cons e d ih =>
    by_cases he : e.1 = k
    · simp [dget, he]
    · rw [dget, if_neg he, ih, List.map_cons]
      constructor
      · intro hk hmem
        rcases List.mem_cons.mp hmem with h1 | h2
        · exact he h1.symm
        · exact hk h2
      · intro hk hmem
        exact hk (List.mem_cons_of_mem _ hmem)

theorem dget_isSome_of_mem_keys {d : List DEntry} {k : Int}
    (h : k ∈ d.map (fun e => e.1)) : ∃ v, dget d k = some v := by
  rcases hv : dget d k with _ | v
  · exact absurd (dget_eq_none_iff.mp hv) (by simpa using h)
  · exact ⟨v, rfl⟩

theorem dget_dpop_ne {d : List DEntry} {k k' : Int} (h : k' ≠ k) :
    dget (dpop d k) k' = dget d k' := by
  induction d with
  | nil => rfl
  | cons e d ih =>
    by_cases he : e.1 = k
    · rw [dpop, if_pos he, dget, if_neg (by rw [he]; exact fun hh => h hh.symm)]
    · rw [dpop, if_neg he]
      by_cases he' : e.1 = k'
      · rw [dget, if_pos he', dget, if_pos he']
      · rw [dget, if_neg he', dget, if_neg he', ih]

theorem keys_dpop (d : List DEntry) (k : Int) :
    (dpop d k).map (fun e => e.1) = (d.map (fun e => e.1)).erase k := by
  induction d with
  | nil => rfl
  | cons e d ih =>
    by_cases he : e.1 = k
    · rw [dpop, if_pos he, List.map_cons, he, List.erase_cons_head]
    · rw [dpop, if_neg he, List.map_cons, List.map_cons,
        List.erase_cons_tail (by simpa using he), ih]

theorem dget_dpop_self {d : List DEntry} {k : Int}
    (hnd : (d.map (fun e => e.1)).Nodup) : dget (dpop d k) k = none := by
  rw [dget_eq_none_iff, keys_dpop]
  intro hmem
  exact ((hnd.mem_erase_iff).mp hmem).1 rfl

theorem dget_dset_self (d : List DEntry) (k : Int) (v : Int × Int) :
    dget (dset d k v) k = some v := by
  induction d with
  | nil => simp [dset, dget]
  | cons e d ih =>
    by_cases he : e.1 = k
    · rw [dset, if_pos he, dget, if_pos rfl]
    · rw [dset, if_neg he, dget, if_neg he, ih]

theorem dget_dset_ne (d : List DEntry) {k k' : Int} (v : Int × Int) (h : k' ≠ k) :
    dget (dset d k v) k' = dget d k' := by
  induction d with
  | nil =>
    simp only [dset, dget]
    rw [if_neg (fun hh : k = k' => h hh.symm)]
  | cons e d ih =>
    by_cases he : e.1 = k
    · rw [dset, if_pos he, dget, if_neg (fun hh : k = k' => h hh.symm), dget,
        if_neg (by rw [he]; exact fun hh => h hh.symm)]
    · rw [dset, if_neg he]
      by_cases he' : e.1 = k'
      · rw [dget, if_pos he', dget, if_pos he']
      · rw [dget, if_neg he', dget, if_neg he', ih]

theorem dset_fresh {d : List DEntry} {k : Int} (v : Int × Int)
    (h : k ∉ d.map (fun e => e.1)) : dset d k v = d ++ [(k, v)] := by
  induction d with
  | nil => rfl
  | cons e d ih =>
    have he : e.1 ≠ k := by
      intro hh
      exact h (by simp [hh])
    rw [dset, if_neg he, List.cons_append, ih (fun hh => h (List.mem_cons_of_mem _ hh))]

/-- The start-shift pass of `insert_te` over the `active_TEs` dict keeps
every key in place. -/
theorem keys_mapShift (d : List DEntry) (pos ln : Int) :
    (d.map fun e => if e.2.1 > pos then (e.1, e.2.1 + ln, e.2.2) else e).map
        (fun e => e.1) =
      d.map (fun e => e.1) := by
  induction d with
  | nil => rfl
  | cons e d ih =>
    by_cases he : e.2.1 > pos
    · simp only [List.map_cons, if_pos he, ih]
    · simp only [List.map_cons, if_neg he, ih]

/-- The start-shift pass, read through `dget`. -/
theorem dget_mapShift (d : List DEntry) (pos ln k : Int) :
    dget (d.map fun e => if e.2.1 > pos then (e.1, e.2.1 + ln, e.2.2) else e) k =
      (dget d k).map fun v => if v.1 > pos then (v.1 + ln, v.2) else v := by
  induction d with
  | nil => rfl
  | cons e d ih =>
    by_cases he : e.2.1 > pos
    · by_cases hk : e.1 = k
      · simp only [List.map_cons, if_pos he, dget, if_pos hk, Option.map_some']
      · simp only [List.map_cons, if_pos he, dget, if_neg hk, ih]
    · by_cases hk : e.1 = k
      · simp only [List.map_cons, if_neg he, dget, if_pos hk, Option.map_some']
      · simp only [List.map_cons, if_neg he, dget, if_neg hk, ih]

/-! ## Range-loop characterizations -/

/-- `ListGenome.disable_te`'s loop, when the range fits in the genome:
no raise, and position `p` reads `('x', id)` inside `[st, st+cnt)` and is
untouched outside. -/
theorem setRangeL_spec (g : List (Char × Int)) (st : Int) (cnt : Nat) (id : Int)
    (h0 : 0 ≤ st) (h1 : st.toNat + cnt ≤ g.length) :
    (setRangeL g st cnt id).1 = .ok () ∧
    (setRangeL g st cnt id).2.length = g.length ∧
    ∀ p : Nat, (setRangeL g st cnt id).2[p]? =
      if st ≤ (p : Int) ∧ (p : Int) < st + cnt then some ('x', id) else g[p]? := by
  induction cnt generalizing g st with
  | zero =>
    refine ⟨rfl, rfl, fun p => ?_⟩
    rw [if_neg (by omega)]
    rfl
  | succ c ih =>
    have hlt : st < (g.length : Int) := by omega
    have hstep : setRangeL g st (c + 1) id =
        setRangeL (g.set st.toNat ('x', id)) (st + 1) c id := by
      simp only [setRangeL, pySet_eq _ h0 hlt]
    obtain ⟨ihok, ihlen, ihget⟩ :=
      ih (g.set st.toNat ('x', id)) (st + 1) (by omega)
        (by rw [List.length_set]; omega)
    rw [hstep]
    refine ⟨ihok, by rw [ihlen, List.length_set], fun p => ?_⟩
    rw [ihget p, List.getElem?_set]
    by_cases hin : st ≤ (p : Int) ∧ (p : Int) < st + (c + 1 : Nat)
    · rw [if_pos hin]
      by_cases hp : (p : Int) = st
      · rw [if_neg (by omega), if_pos (by omega), if_pos (by omega)]
      · rw [if_pos (by omega)]
    · rw [if_neg hin, if_neg (by omega), if_neg (by omega)]

/-- The collision loop of `LinkedListGenome.insert_te`, when the range
fits: position `p` is replaced by `Nucleotide('x', idOld)` inside the
range. -/
theorem setXRangeK_spec (g : List Nucleotide) (st : Int) (cnt : Nat) (idOld : Int)
    (h0 : 0 ≤ st) (h1 : st.toNat + cnt ≤ g.length) :
    (setXRangeK g st cnt idOld).1 = .ok () ∧
    (setXRangeK g st cnt idOld).2.length = g.length ∧
    ∀ p : Nat, (setXRangeK g st cnt idOld).2[p]? =
      if st ≤ (p : Int) ∧ (p : Int) < st + cnt then some ⟨'x', some idOld⟩
      else g[p]? := by
  induction cnt generalizing g st with
  | zero =>
    refine ⟨rfl, rfl, fun p => ?_⟩
    rw [if_neg (by omega)]
    rfl
  | succ c ih =>
    have hstep : setXRangeK g st (c + 1) idOld =
        setXRangeK (g.set st.toNat ⟨'x', some idOld⟩) (st + 1) c idOld := by
      simp only [setXRangeK, if_pos (⟨h0, by omega⟩ : 0 ≤ st ∧ st < (g.length : Int))]
    obtain ⟨ihok, ihlen, ihget⟩ :=
      ih (g.set st.toNat ⟨'x', some idOld⟩) (st + 1) (by omega)
        (by rw [List.length_set]; omega)
    rw [hstep]
    refine ⟨ihok, by rw [ihlen, List.length_set], fun p => ?_⟩
    rw [ihget p, List.getElem?_set]
    by_cases hin : st ≤ (p : Int) ∧ (p : Int) < st + (c + 1 : Nat)
    · rw [if_pos hin]
      by_cases hp : (p : Int) = st
      · rw [if_neg (by omega), if_pos (by omega), if_pos (by omega)]
      · rw [if_pos (by omega)]
    · rw [if_neg hin, if_neg (by omega), if_neg (by omega)]

/-- The loop of `LinkedListGenome.disable_te`, when the range fits: the
symbol is flipped to `'x'` and the nucleotide's id is kept. -/
theorem disRangeK_spec (g : List Nucleotide) (st : Int) (cnt : Nat)
    (h0 : 0 ≤ st) (h1 : st.toNat + cnt ≤ g.length) :
    (disRangeK g st cnt).1 = .ok () ∧
    (disRangeK g st cnt).2.length = g.length ∧
    ∀ p : Nat, (disRangeK g st cnt).2[p]? =
      if st ≤ (p : Int) ∧ (p : Int) < st + cnt then
        (g[p]?).map fun nu => ⟨'x', nu.id⟩
      else g[p]? := by
  induction cnt generalizing g st with
  | zero =>
    refine ⟨rfl, rfl, fun p => ?_⟩
    rw [if_neg (by omega)]
    rfl
  | succ c ih =>
    have hltN : st.toNat < g.length := by omega
    obtain ⟨nu, hnu⟩ : ∃ nu, g[st.toNat]? = some nu :=
      ⟨g[st.toNat], List.getElem?_eq_some.mpr ⟨hltN, rfl⟩⟩
    have hstep : disRangeK g st (c + 1) =
        disRangeK (g.set st.toNat ⟨'x', nu.id⟩) (st + 1) c := by
      simp only [disRangeK, seqGet_eq h0 (by omega : st < (g.length : Int)), hnu]
    obtain ⟨ihok, ihlen, ihget⟩ :=
      ih (g.set st.toNat ⟨'x', nu.id⟩) (st + 1) (by omega)
        (by rw [List.length_set]; omega)
    rw [hstep]
    refine ⟨ihok, by rw [ihlen, List.length_set], fun p => ?_⟩
    rw [ihget p, List.getElem?_set]
    by_cases hin : st ≤ (p : Int) ∧ (p : Int) < st + (c + 1 : Nat)
    · rw [if_pos hin]
      by_cases hp : (p : Int) = st
      · rw [if_neg (by omega), if_pos (by omega), if_pos (by omega)]
        have : p = st.toNat := by omega
        rw [this, hnu]
        rfl
      · rw [if_pos (by omega), if_neg (by omega)]
    · rw [if_neg hin, if_neg (by omega), if_neg (by omega)]

/-! ## Operation characterizations -/

theorem sliceInsert_eq {l : List α} {i : Int} (xs : List α)
    (h0 : 0 ≤ i) (h1 : i ≤ (l.length : Int)) :
    sliceInsert l i xs = l.take i.toNat ++ xs ++ l.drop i.toNat := by
  unfold sliceInsert
  rw [slicePos_eq h0 h1]

/-- Pointwise contents of a splice `take q ++ xs ++ drop q`. -/
theorem splice_getElem? (g : List α) (q : Nat) (xs : List α) (hq : q ≤ g.length)
    (p : Nat) :
    (g.take q ++ xs ++ g.drop q)[p]? =
      if p < q then g[p]?
      else if p < q + xs.length then xs[p - q]?
      else g[p - xs.length]? := by
  have hlt : (List.take q g).length = q := by
    rw [List.length_take]
    omega
  rw [List.getElem?_append, List.getElem?_append, List.length_append, hlt]
  split_ifs with h1 h2
  · rw [List.getElem?_take, if_pos h2]
  · rfl
  · omega
  · rw [List.getElem?_drop]
    congr 1
    omega

theorem splice_length (g : List α) (q : Nat) (xs : List α) :
    (g.take q ++ xs ++ g.drop q).length = g.length + xs.length := by
  simp only [List.length_append, List.length_take, List.length_drop]
  omega

/-- `ListGenome.disable_te` on an active id whose record's range fits in
the genome: success, the range is overwritten with `('x', k)`, and the
record moves dicts. -/
theorem ListGenome.disable_te_spec (s : ListGenome) {k st ln : Int}
    (h : dget s.active_TEs k = some (st, ln))
    (h0 : 0 ≤ st) (hln : 0 ≤ ln) (h1 : st + ln ≤ (s.genome.length : Int)) :
    ∃ g2 : List (Char × Int), s.disable_te k =
      (.ok (), { s with genome := g2,
                        active_TEs := dpop s.active_TEs k,
                        inactive_TEs := dset s.inactive_TEs k (st, ln) }) ∧
      g2.length = s.genome.length ∧
      ∀ p : Nat, g2[p]? =
        if st ≤ (p : Int) ∧ (p : Int) < st + ln then some ('x', k)
        else s.genome[p]? := by
  obtain ⟨hok, hlen, hget⟩ := setRangeL_spec s.genome st ln.toNat k h0 (by omega)
  rcases hr : setRangeL s.genome st ln.toNat k with ⟨res, g2⟩
  rw [hr] at hok hlen hget
  have hok' : res = Except.ok () := hok
  subst hok'
  refine ⟨g2, ?_, hlen, fun p => ?_⟩
  · simp only [ListGenome.disable_te, h, hr]
  · rw [hget p, Int.toNat_of_nonneg hln]

/-- `LinkedListGenome.disable_te` on an id resolving to a record whose
range fits: success, symbols flipped to `'x'` keeping ids, status set. -/
theorem LinkedListGenome.disable_te_specK (t : LinkedListGenome) {k : Int} {j : Nat}
    {r : TErec}
    (hres : pyResolve t.tes.length (k - 1) = some j)
    (hrec : t.tes[j]? = some r)
    (h0 : 0 ≤ r.pos) (hln : 0 ≤ r.length)
    (h1 : r.pos + r.length ≤ (t.genome.length : Int)) :
    ∃ g2 : List Nucleotide, t.disable_te k =
      (.ok (), { genome := g2, tes := t.tes.set j { r with status := .inactive } }) ∧
      g2.length = t.genome.length ∧
      ∀ p : Nat, g2[p]? =
        if r.pos ≤ (p : Int) ∧ (p : Int) < r.pos + r.length then
          (t.genome[p]?).map fun nu => ⟨'x', nu.id⟩
        else t.genome[p]? := by
  obtain ⟨hok, hlen, hget⟩ := disRangeK_spec t.genome r.pos r.length.toNat h0 (by omega)
  rcases hr : disRangeK t.genome r.pos r.length.toNat with ⟨res, g2⟩
  rw [hr] at hok hlen hget
  have hok' : res = Except.ok () := hok
  subst hok'
  refine ⟨g2, ?_, hlen, fun p => ?_⟩
  · simp only [LinkedListGenome.disable_te, hres, hrec, hr]
  · rw [hget p, Int.toNat_of_nonneg hln]

/-- `ListGenome.insert_te` at a valid non-colliding position. -/
theorem ListGenome.insert_te_spec_nocol (s : ListGenome) {pos : Int} (len : Int)
    {c : Char} {tid : Int}
    (hpos0 : 0 ≤ pos) (hposlt : pos < (s.genome.length : Int))
    (hsym : s.genome[pos.toNat]? = some (c, tid)) (hc : c ≠ 'A') :
    s.insert_te pos len = (.ok (s.number_of_TEs + 1),
      { genome := sliceInsert s.genome pos
          (List.replicate len.toNat ('A', s.number_of_TEs + 1)),
        active_TEs := (dset s.active_TEs (s.number_of_TEs + 1) (pos, len)).map
          fun e => if e.2.1 > pos then (e.1, e.2.1 + len, e.2.2) else e,
        inactive_TEs := s.inactive_TEs,
        number_of_TEs := s.number_of_TEs + 1 }) := by
  have hpg : pyGet s.genome pos = some (c, tid) := by
    rw [pyGet_eq hpos0 hposlt]
    exact hsym
  simp only [ListGenome.insert_te, hpg, if_neg hc]

/-- `ListGenome.insert_te` at a valid position holding an Active symbol
of TE `k` whose record fits: TE `k` is disabled first, then the splice
happens on the painted genome. -/
theorem ListGenome.insert_te_spec_col (s : ListGenome) {pos : Int} (len : Int)
    {k st ln : Int}
    (hpos0 : 0 ≤ pos) (hposlt : pos < (s.genome.length : Int))
    (hsym : s.genome[pos.toNat]? = some ('A', k))
    (hk : dget s.active_TEs k = some (st, ln))
    (h0 : 0 ≤ st) (hln : 0 ≤ ln) (h1 : st + ln ≤ (s.genome.length : Int)) :
    ∃ g2 : List (Char × Int),
      s.insert_te pos len = (.ok (s.number_of_TEs + 1),
        { genome := sliceInsert g2 pos
            (List.replicate len.toNat ('A', s.number_of_TEs + 1)),
          active_TEs := (dset (dpop s.active_TEs k) (s.number_of_TEs + 1)
              (pos, len)).map
            fun e => if e.2.1 > pos then (e.1, e.2.1 + len, e.2.2) else e,
          inactive_TEs := dset s.inactive_TEs k (st, ln),
          number_of_TEs := s.number_of_TEs + 1 }) ∧
      g2.length = s.genome.length ∧
      ∀ p : Nat, g2[p]? =
        if st ≤ (p : Int) ∧ (p : Int) < st + ln then some ('x', k)
        else s.genome[p]? := by
  have hpg : pyGet s.genome pos = some ('A', k) := by
    rw [pyGet_eq hpos0 hposlt]
    exact hsym
  obtain ⟨g2, hdis, hlen, hget⟩ := ListGenome.disable_te_spec
    { s with number_of_TEs := s.number_of_TEs + 1 } (k := k) hk h0 hln h1
  refine ⟨g2, ?_, hlen, hget⟩
  simp only [ListGenome.insert_te, hpg, if_pos rfl, hdis, if_true]

/-- `LinkedListGenome.insert_te` at a valid non-colliding position with a
positive length. -/
theorem LinkedListGenome.insert_te_spec_nocolK (t : LinkedListGenome) {pos : Int}
    (len : Int) {nuc : Nucleotide}
    (hpos0 : 0 ≤ pos) (hposlt : pos < (t.genome.length : Int))
    (hsym : t.genome[pos.toNat]? = some nuc) (hc : nuc.symbol ≠ 'A')
    (hlen : 1 ≤ len) :
    t.insert_te pos len = (.ok ((t.tes.length : Int) + 1),
      { genome := t.genome.take pos.toNat
          ++ List.replicate len.toNat ⟨'A', some ((t.tes.length : Int) + 1)⟩
          ++ t.genome.drop pos.toNat,
        tes := (t.tes ++ [({ id := (t.tes.length : Int) + 1, pos := pos,
                             length := len, status := .active } : TErec)]).map
          fun x : TErec =>
            if x.pos > pos then { x with pos := x.pos + len } else x }) := by
  have hpg : seqGet t.genome pos = some nuc := by
    rw [seqGet_eq hpos0 hposlt]
    exact hsym
  simp only [LinkedListGenome.insert_te, hpg, if_neg hc, if_neg (by omega : ¬ len < 1)]

/-- `LinkedListGenome.insert_te` at a valid position holding an Active
nucleotide of TE `k` whose record fits, with a positive length. -/
theorem LinkedListGenome.insert_te_spec_colK (t : LinkedListGenome) {pos : Int}
    (len : Int) {nuc : Nucleotide} {k : Int} {j : Nat} {r : TErec}
    (hpos0 : 0 ≤ pos) (hposlt : pos < (t.genome.length : Int))
    (hsym : t.genome[pos.toNat]? = some nuc) (hcA : nuc.symbol = 'A')
    (hid : nuc.id = some k)
    (hres : pyResolve t.tes.length (k - 1) = some j)
    (hrec : t.tes[j]? = some r)
    (h0 : 0 ≤ r.pos) (hln : 0 ≤ r.length)
    (h1 : r.pos + r.length ≤ (t.genome.length : Int)) (hlen : 1 ≤ len) :
    ∃ g2 : List Nucleotide,
      t.insert_te pos len = (.ok ((t.tes.length : Int) + 1),
        { genome := g2.take pos.toNat
            ++ List.replicate len.toNat ⟨'A', some ((t.tes.length : Int) + 1)⟩
            ++ g2.drop pos.toNat,
          tes := ((t.tes.set j { r with status := .inactive })
              ++ [({ id := (t.tes.length : Int) + 1, pos := pos,
                     length := len, status := .active } : TErec)]).map
            fun x : TErec =>
              if x.pos > pos then { x with pos := x.pos + len } else x }) ∧
      g2.length = t.genome.length ∧
      ∀ p : Nat, g2[p]? =
        if r.pos ≤ (p : Int) ∧ (p : Int) < r.pos + r.length then
          some ⟨'x', some k⟩
        else t.genome[p]? := by
  have hpg : seqGet t.genome pos = some nuc := by
    rw [seqGet_eq hpos0 hposlt]
    exact hsym
  obtain ⟨hok, hlen2, hget⟩ := setXRangeK_spec t.genome r.pos r.length.toNat k h0 (by omega)
  rcases hr : setXRangeK t.genome r.pos r.length.toNat k with ⟨res, g2⟩
  rw [hr] at hok hlen2 hget
  have hok' : res = Except.ok () := hok
  subst hok'
  refine ⟨g2, ?_, hlen2, fun p => ?_⟩
  · simp only [LinkedListGenome.insert_te, hpg, if_pos hcA, hid, hres, hrec, hr,
      if_neg (by omega : ¬ len < 1)]
  · rw [hget p, Int.toNat_of_nonneg hln]

/-! ## The simulation invariant -/

/-- Pointwise relation between a `ListGenome` cell and a linked-list
`Nucleotide`: same symbol and, at an Active symbol, the same TE id. -/
def nucRel (e : Char × Int) (nu : Nucleotide) : Prop :=
  nu.symbol = e.1 ∧ (e.1 = 'A' → nu.id = some e.2)

/-- `Forall₂` by pointwise `getElem?`. -/
theorem forall₂_get?_iff {R : α → β → Prop} {l₁ : List α} {l₂ : List β} :
    List.Forall₂ R l₁ l₂ ↔
      (l₁.length = l₂.length ∧
        ∀ (i : Nat) (a : α) (b : β), l₁[i]? = some a → l₂[i]? = some b → R a b) := by
  rw [List.forall₂_iff_get]
  constructor
  · rintro ⟨hlen, hget⟩
    refine ⟨hlen, fun i a b ha hb => ?_⟩
    obtain ⟨h₁, ha⟩ := List.getElem?_eq_some.mp ha
    obtain ⟨h₂, hb⟩ := List.getElem?_eq_some.mp hb
    have := hget i h₁ h₂
    rwa [List.get_eq_getElem, List.get_eq_getElem, ha, hb] at this
  · rintro ⟨hlen, hget⟩
    refine ⟨hlen, fun i h₁ h₂ => ?_⟩
    exact hget i _ _ (by rw [List.getElem?_eq_getElem h₁, List.get_eq_getElem])
      (by rw [List.getElem?_eq_getElem h₂, List.get_eq_getElem])

/-- The simulation invariant tying a `ListGenome` state to a
`LinkedListGenome` state.  Besides the pointwise correspondence of the
two backing stores and of the active records, it carries the
well-formedness facts needed to push the correspondence through the
operations: ids are positions in `tes` shifted by one, the `active_TEs`
keys (in order) are the ids of the active records (in order), every
active record's range fits in the genome with a positive length, reads
`'A'` tagged with its id throughout (`cov`), and conversely every `'A'`
cell lies in the range of the active record of its id (`asym`).  Nothing
is claimed about `inactive_TEs` or about the `pos` of inactive records:
the two realizations genuinely diverge there. -/
structure SimInv (s : ListGenome) (t : LinkedListGenome) : Prop where
  gen : List.Forall₂ nucRel s.genome t.genome
  cnt : s.number_of_TEs = (t.tes.length : Int)
  ids : ∀ (j : Nat) (r : TErec), t.tes[j]? = some r → r.id = (j : Int) + 1
  keys : s.active_TEs.map (fun e => e.1) = t.active_tes
  reca : ∀ (j : Nat) (r : TErec), t.tes[j]? = some r → r.status = .active →
    dget s.active_TEs ((j : Int) + 1) = some (r.pos, r.length)
  reci : ∀ (j : Nat) (r : TErec), t.tes[j]? = some r → r.status = .inactive →
    dget s.active_TEs ((j : Int) + 1) = none
  rng : ∀ k st ln, dget s.active_TEs k = some (st, ln) →
    0 ≤ st ∧ 1 ≤ ln ∧ st + ln ≤ (s.genome.length : Int)
  cov : ∀ k st ln, dget s.active_TEs k = some (st, ln) →
    ∀ p : Nat, st ≤ (p : Int) → (p : Int) < st + ln → s.genome[p]? = some ('A', k)
  asym : ∀ (p : Nat) (c : Char) (k : Int), s.genome[p]? = some (c, k) → c = 'A' →
    ∃ st ln, dget s.active_TEs k = some (st, ln) ∧ st ≤ (p : Int) ∧ (p : Int) < st + ln

theorem SimInv.glen {s : ListGenome} {t : LinkedListGenome} (h : SimInv s t) :
    s.genome.length = t.genome.length :=
  h.gen.length_eq

/-- Under the invariant both genomes render the same string. -/
theorem SimInv.render_eq {s : ListGenome} {t : LinkedListGenome} (h : SimInv s t) :
    s.render = t.render := by
  apply List.ext_getElem?
  intro p
  unfold ListGenome.render LinkedListGenome.render
  rw [List.getElem?_map, List.getElem?_map]
  obtain ⟨hlen, hget⟩ := forall₂_get?_iff.mp h.gen
  rcases ha : s.genome[p]? with _ | a
  · rw [List.getElem?_eq_none (by rw [← hlen]; exact List.getElem?_eq_none_iff.mp ha)]
    rfl
  · have hp : p < t.genome.length := by
      rw [← hlen]
      exact (List.getElem?_eq_some.mp ha).1
    obtain ⟨b, hb⟩ : ∃ b, t.genome[p]? = some b :=
      ⟨t.genome[p], List.getElem?_eq_some.mpr ⟨hp, rfl⟩⟩
    rw [hb]
    have := (hget p a b ha hb).1
    simp only [Option.map_some']
    rw [this]

/-- A `tes` list whose `j`-th record carries id `j+1` has pairwise
distinct ids. -/
theorem nodup_ids_of_indexed {l : List TErec}
    (h : ∀ (j : Nat) (r : TErec), l[j]? = some r → r.id = (j : Int) + 1) :
    (l.map TErec.id).Nodup := by
  rw [List.nodup_iff_get?_ne_get?]
  intro i j hij hjlen hcon
  rw [List.get?_eq_getElem?, List.get?_eq_getElem?, List.getElem?_map,
    List.getElem?_map] at hcon
  rw [List.length_map] at hjlen
  obtain ⟨rj, hrj⟩ : ∃ r, l[j]? = some r :=
    ⟨l[j], List.getElem?_eq_some.mpr ⟨hjlen, rfl⟩⟩
  obtain ⟨ri, hri⟩ : ∃ r, l[i]? = some r := by
    have hilt : i < l.length := by omega
    exact ⟨l[i], List.getElem?_eq_some.mpr ⟨hilt, rfl⟩⟩
  rw [hri, hrj] at hcon
  have hi := h i ri hri
  have hj := h j rj hrj
  simp only [Option.map_some'] at hcon
  have : ri.id = rj.id := by injection hcon
  omega

/-- Under the invariant the `active_TEs` keys are pairwise distinct. -/
theorem SimInv.keysNodup {s : ListGenome} {t : LinkedListGenome} (h : SimInv s t) :
    (s.active_TEs.map (fun e => e.1)).Nodup := by
  rw [h.keys]
  exact ((List.filter_sublist t.tes).map TErec.id).nodup
    (nodup_ids_of_indexed h.ids)

/-- Under the invariant every `active_TEs` key is an id in
`[1, len(tes)]`. -/
theorem SimInv.key_bound {s : ListGenome} {t : LinkedListGenome} (h : SimInv s t)
    {k : Int} (hk : k ∈ s.active_TEs.map (fun e => e.1)) :
    1 ≤ k ∧ k ≤ (t.tes.length : Int) := by
  rw [h.keys] at hk
  unfold LinkedListGenome.active_tes at hk
  obtain ⟨r, hr, rfl⟩ := List.mem_map.mp hk
  obtain ⟨hmem, _⟩ := List.mem_filter.mp hr
  obtain ⟨j, hj⟩ := List.mem_iff_getElem?.mp hmem
  have hlt : j < t.tes.length := (List.getElem?_eq_some.mp hj).1
  have := h.ids j r hj
  omega

/-- Under the invariant an active dict entry corresponds to an active
record of the linked realization, found by the `tes[k-1]` lookup. -/
theorem SimInv.active_lookup {s : ListGenome} {t : LinkedListGenome} (h : SimInv s t)
    {k st ln : Int} (hk : dget s.active_TEs k = some (st, ln)) :
    ∃ (j : Nat) (r : TErec),
      pyResolve t.tes.length (k - 1) = some j ∧ (j : Int) = k - 1 ∧
      t.tes[j]? = some r ∧ r.status = .active ∧ r.id = k ∧
      r.pos = st ∧ r.length = ln := by
  have hmem : k ∈ s.active_TEs.map (fun e => e.1) :=
    List.mem_map.mpr ⟨(k, st, ln), dget_mem hk, rfl⟩
  obtain ⟨hk1, hk2⟩ := h.key_bound hmem
  have hres : pyResolve t.tes.length (k - 1) = some (k - 1).toNat :=
    pyResolve_of_nonneg (by omega) (by omega)
  have hlt : (k - 1).toNat < t.tes.length := by omega
  obtain ⟨r, hr⟩ : ∃ r, t.tes[(k - 1).toNat]? = some r :=
    ⟨t.tes[(k - 1).toNat], List.getElem?_eq_some.mpr ⟨hlt, rfl⟩⟩
  have hid : r.id = k := by
    have := h.ids _ r hr
    omega
  have hstat : r.status = .active := by
    rcases hst : r.status with _ | _
    · rfl
    · have := h.reci _ r hr hst
      rw [(by omega : ((((k - 1).toNat : Nat) : Int) + 1) = k)] at this
      rw [this] at hk
      exact absurd hk (by simp)
  have hrec := h.reca _ r hr hstat
  rw [(by omega : ((((k - 1).toNat : Nat) : Int) + 1) = k)] at hrec
  rw [hrec] at hk
  obtain ⟨h1, h2⟩ : r.pos = st ∧ r.length = ln := by
    have hh : ((st, ln) : Int × Int) = (r.pos, r.length) := by
      injection hk with hh2
      exact hh2.symm
    exact ⟨(congrArg Prod.fst hh).symm, (congrArg Prod.snd hh).symm⟩
  exact ⟨(k - 1).toNat, r, hres, by omega, hr, hstat, hid, h1, h2⟩

/-- Under the invariant, ranges of two distinct active records do not
intersect. -/
theorem SimInv.disjoint {s : ListGenome} {t : LinkedListGenome} (h : SimInv s t)
    {k k' st ln st' ln' : Int}
    (hk : dget s.active_TEs k = some (st, ln))
    (hk' : dget s.active_TEs k' = some (st', ln'))
    (hne : k ≠ k') :
    ∀ p : Int, st ≤ p → p < st + ln → ¬ (st' ≤ p ∧ p < st' + ln') := by
  intro p hp1 hp2 ⟨hq1, hq2⟩
  have h0 := (h.rng k st ln hk).1
  have hpn : 0 ≤ p := by omega
  have hc1 := h.cov k st ln hk p.toNat (by omega) (by omega)
  have hc2 := h.cov k' st' ln' hk' p.toNat (by omega) (by omega)
  rw [hc1] at hc2
  have : k = k' := by
    injection hc2 with hh
    exact congrArg Prod.snd hh
  exact hne this

/-- Flipping the status of the (unique) record with id `r.id` removes
exactly that id from the active-tes projection. -/
theorem filter_map_set_inactive (l : List TErec) (j : Nat) (r : TErec)
    (hj : l[j]? = some r) (hact : r.status = .active)
    (hnd : (l.map TErec.id).Nodup) :
    ((l.set j { r with status := .inactive }).filter
        (fun x => decide (x.status = Status.active))).map TErec.id
      = ((l.filter (fun x => decide (x.status = Status.active))).map
          TErec.id).erase r.id := by
  induction l generalizing j with
  | nil => simp at hj
  | cons e l ih =>
    simp only [List.map_cons, List.nodup_cons] at hnd
    rcases j with _ | j
    · have he : e = r := by
        rw [List.getElem?_cons_zero] at hj
        injection hj
      subst he
      rw [List.set_cons_zero, List.filter_cons, List.filter_cons,
        if_neg (by simp), if_pos (by simp [hact]), List.map_cons,
        List.erase_cons_head]
    · rw [List.getElem?_cons_succ] at hj
      have hne : e.id ≠ r.id := by
        intro hcon
        have hrmem : r ∈ l := List.mem_iff_getElem?.mpr ⟨j, hj⟩
        exact hnd.1 (hcon ▸ List.mem_map.mpr ⟨r, hrmem, rfl⟩)
      rw [List.set_cons_succ, List.filter_cons, List.filter_cons]
      by_cases hce : e.status = Status.active
      · rw [if_pos (by simp [hce]), if_pos (by simp [hce]), List.map_cons,
          List.map_cons, List.erase_cons_tail (by simpa using hne),
          ih j hj hnd.2]
      · rw [if_neg (by simp [hce]), if_neg (by simp [hce]), ih j hj hnd.2]

/-- The pos-shift pass of `LinkedListGenome.insert_te` changes neither
statuses nor ids, so the active-tes projection is unchanged. -/
theorem filter_map_shift (l : List TErec) (pos len : Int) :
    ((l.map fun x : TErec =>
        if x.pos > pos then { x with pos := x.pos + len } else x).filter
        (fun x => decide (x.status = Status.active))).map TErec.id
      = (l.filter (fun x => decide (x.status = Status.active))).map TErec.id := by
  induction l with
  | nil => rfl
  | cons e l ih =>
    rw [List.map_cons]
    by_cases hp : e.pos > pos
    · rw [if_pos hp, List.filter_cons, List.filter_cons]
      by_cases hs : e.status = Status.active
      · rw [if_pos (by simp [hs]), if_pos (by simp [hs]), List.map_cons,
          List.map_cons, ih]
      · rw [if_neg (by simp [hs]), if_neg (by simp [hs]), ih]
    · rw [if_neg hp, List.filter_cons, List.filter_cons]
      by_cases hs : e.status = Status.active
      · rw [if_pos (by simp [hs]), if_pos (by simp [hs]), List.map_cons,
          List.map_cons, ih]
      · rw [if_neg (by simp [hs]), if_neg (by simp [hs]), ih]

/-- The invariant holds for the two fresh genomes of the same size. -/
theorem simInv_init (n : Nat) : SimInv (ListGenome.init n) (LinkedListGenome.init n) := by
  refine ⟨?_, rfl, ?_, rfl, ?_, ?_, ?_, ?_, ?_⟩
  · refine forall₂_get?_iff.mpr ⟨by simp [ListGenome.init, LinkedListGenome.init], ?_⟩
    intro i a b ha hb
    simp only [ListGenome.init, List.getElem?_replicate] at ha
    simp only [LinkedListGenome.init, List.getElem?_replicate] at hb
    rcases Nat.lt_or_ge i n with hi | hi
    · rw [if_pos hi] at ha hb
      obtain rfl : ('-', (0 : Int)) = a := by injection ha
      obtain rfl : (⟨'-', none⟩ : Nucleotide) = b := by injection hb
      exact ⟨rfl, by intro hcon; exact absurd hcon (by decide)⟩
    · rw [if_neg (by omega)] at ha
      exact absurd ha (by simp)
  · intro j r hj
    exact absurd hj (by simp [LinkedListGenome.init])
  · intro j r hj
    exact absurd hj (by simp [LinkedListGenome.init])
  · intro j r hj
    exact absurd hj (by simp [LinkedListGenome.init])
  · intro k st ln hk
    exact absurd hk (by simp [ListGenome.init, dget])
  · intro k st ln hk
    exact absurd hk (by simp [ListGenome.init, dget])
  · intro p c k hp hc
    simp only [ListGenome.init, List.getElem?_replicate] at hp
    rcases Nat.lt_or_ge p n with hi | hi
    · rw [if_pos hi] at hp
      have : c = '-' := by
        have hh : (('-', (0 : Int)) : Char × Int) = (c, k) := by injection hp
        exact (congrArg Prod.fst hh).symm
      rw [this] at hc
      exact absurd hc (by decide)
    · rw [if_neg (by omega)] at hp
      exact absurd hp (by simp)

/-- `disable_te` on a currently-active id: both realizations succeed,
and the invariant is preserved. -/
theorem disable_sim {s : ListGenome} {t : LinkedListGenome} (h : SimInv s t)
    {k : Int} (hk : k ∈ s.active_TEs.map (fun e => e.1)) :
    (s.disable_te k).1 = .ok () ∧ (t.disable_te k).1 = .ok () ∧
    SimInv (s.disable_te k).2 (t.disable_te k).2 := by
  obtain ⟨⟨st, ln⟩, hget⟩ := dget_isSome_of_mem_keys hk
  obtain ⟨h0, hln, h1⟩ := h.rng k st ln hget
  obtain ⟨gL, hdisL, hlenL, hgetL⟩ :=
    ListGenome.disable_te_spec s hget h0 (by omega) h1
  obtain ⟨j, r, hres, hjk, hrec, hstat, hid, hrpos, hrlen⟩ := h.active_lookup hget
  obtain ⟨gK, hdisK, hlenK, hgetK⟩ :=
    LinkedListGenome.disable_te_specK t hres hrec (by rw [hrpos]; exact h0)
      (by rw [hrlen]; omega) (by rw [hrpos, hrlen, ← h.glen]; exact h1)
  rw [hrpos, hrlen] at hgetK
  have hjlt : j < t.tes.length := (List.getElem?_eq_some.mp hrec).1
  rw [hdisL, hdisK]
  refine ⟨rfl, rfl, ?_, h.cnt.trans (by rw [List.length_set]), ?_, ?_, ?_, ?_, ?_, ?_, ?_⟩
  · -- gen
    refine forall₂_get?_iff.mpr ⟨by rw [hlenL, hlenK, h.glen], ?_⟩
    intro i a b ha hb
    rw [hgetL i] at ha
    rw [hgetK i] at hb
    by_cases hin : st ≤ (i : Int) ∧ (i : Int) < st + ln
    · rw [if_pos hin] at ha hb
      obtain rfl : ('x', k) = a := by injection ha
      rcases hnu : t.genome[i]? with _ | nu
      · rw [hnu] at hb
        exact absurd hb (by simp)
      · rw [hnu] at hb
        obtain rfl : (⟨'x', nu.id⟩ : Nucleotide) = b := by
          simp only [Option.map_some'] at hb
          injection hb
        exact ⟨rfl, fun hcon => absurd hcon (by simp)⟩
    · rw [if_neg hin] at ha hb
      exact (forall₂_get?_iff.mp h.gen).2 i a b ha hb
  · -- ids
    intro j' r' hj'
    by_cases hjj : j = j'
    · subst hjj
      rw [List.getElem?_set_self hjlt] at hj'
      obtain rfl : ({ r with status := Status.inactive } : TErec) = r' := by injection hj'
      exact h.ids j r hrec
    · rw [List.getElem?_set_ne hjj] at hj'
      exact h.ids j' r' hj'
  · -- keys
    show List.map (fun e => e.1) (dpop s.active_TEs k) = _
    rw [keys_dpop, h.keys]
    have hkid : k = r.id := hid.symm
    rw [hkid]
    exact (filter_map_set_inactive t.tes j r hrec hstat (nodup_ids_of_indexed h.ids)).symm
  · -- reca
    intro j' r' hj' hact'
    by_cases hjj : j = j'
    · subst hjj
      rw [List.getElem?_set_self hjlt] at hj'
      obtain rfl : ({ r with status := Status.inactive } : TErec) = r' := by injection hj'
      exact absurd hact' (by simp)
    · rw [List.getElem?_set_ne hjj] at hj'
      rw [dget_dpop_ne (by omega : ((j' : Int) + 1) ≠ k)]
      exact h.reca j' r' hj' hact'
  · -- reci
    intro j' r' hj' hinact'
    by_cases hjj : j = j'
    · subst hjj
      rw [(by omega : ((j : Int) + 1) = k)]
      exact dget_dpop_self h.keysNodup
    · rw [List.getElem?_set_ne hjj] at hj'
      rw [dget_dpop_ne (by omega : ((j' : Int) + 1) ≠ k)]
      exact h.reci j' r' hj' hinact'
  · -- rng
    intro k' st' ln' hk'
    have hne : k' ≠ k := by
      intro hcon
      rw [hcon, dget_dpop_self h.keysNodup] at hk'
      exact absurd hk' (by simp)
    rw [dget_dpop_ne hne] at hk'
    have := h.rng k' st' ln' hk'
    simp only [hlenL]
    exact this
  · -- cov
    intro k' st' ln' hk' p hp1 hp2
    have hne : k' ≠ k := by
      intro hcon
      rw [hcon, dget_dpop_self h.keysNodup] at hk'
      exact absurd hk' (by simp)
    rw [dget_dpop_ne hne] at hk'
    rw [hgetL p, if_neg (h.disjoint hk' hget hne p hp1 hp2)]
    exact h.cov k' st' ln' hk' p hp1 hp2
  · -- asym
    intro p c k' hp hc
    rw [hgetL p] at hp
    by_cases hin : st ≤ (p : Int) ∧ (p : Int) < st + ln
    · rw [if_pos hin] at hp
      have : c = 'x' := by
        have hh : (('x', k) : Char × Int) = (c, k') := by injection hp
        exact (congrArg Prod.fst hh).symm
      rw [this] at hc
      exact absurd hc (by decide)
    · rw [if_neg hin] at hp
      obtain ⟨st', ln', hk', hr1, hr2⟩ := h.asym p c k' hp hc
      have hne : k' ≠ k := by
        intro hcon
        rw [hcon, hget] at hk'
        obtain ⟨e1, e2⟩ : st = st' ∧ ln = ln' := by
          have hh : ((st, ln) : Int × Int) = (st', ln') := by injection hk'
          exact ⟨congrArg Prod.fst hh, congrArg Prod.snd hh⟩
        exact hin (by omega)
      exact ⟨st', ln', by rw [dget_dpop_ne hne]; exact hk', hr1, hr2⟩

/-- Splicing a fresh TE at a valid position whose current symbol is not
`'A'` (so no collision) preserves the invariant: the post-states of both
realizations, as computed by `insert_te` after any collision handling,
stay in simulation.  The `inactive_TEs` dict is arbitrary, because the
invariant does not constrain it. -/
theorem splice_sim {s : ListGenome} {t : LinkedListGenome} (h : SimInv s t)
    {pos len : Int} (anyD : List DEntry)
    (hpos0 : 0 ≤ pos) (hposlt : pos < (s.genome.length : Int)) (hlen : 1 ≤ len)
    (hnotA : ∀ k : Int, s.genome[pos.toNat]? ≠ some ('A', k)) :
    SimInv
      { genome := sliceInsert s.genome pos
          (List.replicate len.toNat ('A', s.number_of_TEs + 1)),
        active_TEs := (dset s.active_TEs (s.number_of_TEs + 1) (pos, len)).map
          fun e => if e.2.1 > pos then (e.1, e.2.1 + len, e.2.2) else e,
        inactive_TEs := anyD,
        number_of_TEs := s.number_of_TEs + 1 }
      { genome := t.genome.take pos.toNat
          ++ List.replicate len.toNat ⟨'A', some ((t.tes.length : Int) + 1)⟩
          ++ t.genome.drop pos.toNat,
        tes := (t.tes ++ [({ id := (t.tes.length : Int) + 1, pos := pos,
                             length := len, status := .active } : TErec)]).map
          fun x : TErec =>
            if x.pos > pos then { x with pos := x.pos + len } else x } := by
  have hq : pos.toNat ≤ s.genome.length := by omega
  have hqK : pos.toNat ≤ t.genome.length := by rw [← h.glen]; omega
  have hcid : s.number_of_TEs + 1 = (t.tes.length : Int) + 1 := by rw [h.cnt]
  -- pointwise description of the new list-side genome
  have hLget : ∀ p : Nat,
      (sliceInsert s.genome pos
        (List.replicate len.toNat ('A', s.number_of_TEs + 1)))[p]? =
      if p < pos.toNat then s.genome[p]?
      else if p < pos.toNat + len.toNat then some ('A', s.number_of_TEs + 1)
      else s.genome[p - len.toNat]? := by
    intro p
    rw [sliceInsert_eq _ hpos0 (by omega), splice_getElem? _ _ _ hq p,
      List.length_replicate]
    by_cases h1 : p < pos.toNat
    · rw [if_pos h1, if_pos h1]
    · rw [if_neg h1, if_neg h1]
      by_cases h2 : p < pos.toNat + len.toNat
      · rw [if_pos h2, if_pos h2, List.getElem?_replicate, if_pos (by omega)]
      · rw [if_neg h2, if_neg h2]
  have hLlen :
      (sliceInsert s.genome pos
        (List.replicate len.toNat ('A', s.number_of_TEs + 1))).length =
      s.genome.length + len.toNat := by
    rw [sliceInsert_eq _ hpos0 (by omega), splice_length, List.length_replicate]
  -- pointwise description of the new linked-side genome
  have hKget : ∀ p : Nat,
      (t.genome.take pos.toNat
        ++ List.replicate len.toNat
            (⟨'A', some ((t.tes.length : Int) + 1)⟩ : Nucleotide)
        ++ t.genome.drop pos.toNat)[p]? =
      if p < pos.toNat then t.genome[p]?
      else if p < pos.toNat + len.toNat then
        some ⟨'A', some ((t.tes.length : Int) + 1)⟩
      else t.genome[p - len.toNat]? := by
    intro p
    rw [splice_getElem? _ _ _ hqK p, List.length_replicate]
    by_cases h1 : p < pos.toNat
    · rw [if_pos h1, if_pos h1]
    · rw [if_neg h1, if_neg h1]
      by_cases h2 : p < pos.toNat + len.toNat
      · rw [if_pos h2, if_pos h2, List.getElem?_replicate, if_pos (by omega)]
      · rw [if_neg h2, if_neg h2]
  have hKlen :
      (t.genome.take pos.toNat
        ++ List.replicate len.toNat
            (⟨'A', some ((t.tes.length : Int) + 1)⟩ : Nucleotide)
        ++ t.genome.drop pos.toNat).length = t.genome.length + len.toNat := by
    rw [splice_length, List.length_replicate]
  -- dict descriptions
  have hfresh : (s.number_of_TEs + 1) ∉ s.active_TEs.map (fun e => e.1) := by
    intro hmem
    have := (h.key_bound hmem).2
    rw [h.cnt] at this
    omega
  have hact2_id :
      dget ((dset s.active_TEs (s.number_of_TEs + 1) (pos, len)).map
        fun e => if e.2.1 > pos then (e.1, e.2.1 + len, e.2.2) else e)
        (s.number_of_TEs + 1) = some (pos, len) := by
    rw [dget_mapShift, dget_dset_self]
    simp only [Option.map_some']
    rw [if_neg (by omega)]
  have hact2_ne : ∀ k' : Int, k' ≠ s.number_of_TEs + 1 →
      dget ((dset s.active_TEs (s.number_of_TEs + 1) (pos, len)).map
        fun e => if e.2.1 > pos then (e.1, e.2.1 + len, e.2.2) else e) k' =
      (dget s.active_TEs k').map
        fun v => if v.1 > pos then (v.1 + len, v.2) else v := by
    intro k' hk'
    rw [dget_mapShift, dget_dset_ne _ _ hk']
  -- no active record covers pos
  have hNoCover : ∀ k' st ln, dget s.active_TEs k' = some (st, ln) →
      st + ln ≤ pos ∨ pos < st := by
    intro k' st ln hk'
    by_contra hcon
    push_neg at hcon
    exact hnotA k' (h.cov k' st ln hk' pos.toNat (by omega) (by omega))
  -- tes description
  have htes2 : ∀ j' : Nat,
      ((t.tes ++ [({ id := (t.tes.length : Int) + 1, pos := pos,
                     length := len, status := .active } : TErec)]).map
        fun x : TErec =>
          if x.pos > pos then { x with pos := x.pos + len } else x)[j']? =
      (((t.tes ++ [({ id := (t.tes.length : Int) + 1, pos := pos,
                      length := len, status := .active } : TErec)])[j']?).map
        fun x : TErec =>
          if x.pos > pos then { x with pos := x.pos + len } else x) := by
    intro j'
    rw [List.getElem?_map]
  have htes1_lt : ∀ j' : Nat, j' < t.tes.length →
      (t.tes ++ [({ id := (t.tes.length : Int) + 1, pos := pos,
                    length := len, status := .active } : TErec)])[j']? =
      t.tes[j']? := by
    intro j' hj'
    rw [List.getElem?_append, if_pos hj']
  have htes1_m :
      (t.tes ++ [({ id := (t.tes.length : Int) + 1, pos := pos,
                    length := len, status := .active } : TErec)])[t.tes.length]? =
      some ({ id := (t.tes.length : Int) + 1, pos := pos,
              length := len, status := .active } : TErec) :=
    List.getElem?_concat_length _ _
  refine ⟨?_, ?_, ?_, ?_, ?_, ?_, ?_, ?_, ?_⟩
  · -- gen
    refine forall₂_get?_iff.mpr ⟨by rw [hLlen, hKlen, h.glen], ?_⟩
    intro i a b ha hb
    rw [hLget i] at ha
    rw [hKget i] at hb
    by_cases h1 : i < pos.toNat
    · rw [if_pos h1] at ha hb
      exact (forall₂_get?_iff.mp h.gen).2 i a b ha hb
    · rw [if_neg h1] at ha hb
      by_cases h2 : i < pos.toNat + len.toNat
      · rw [if_pos h2] at ha hb
        obtain rfl : ('A', s.number_of_TEs + 1) = a := by injection ha
        obtain rfl :
            (⟨'A', some ((t.tes.length : Int) + 1)⟩ : Nucleotide) = b := by
          injection hb
        exact ⟨rfl, fun _ => by rw [hcid]⟩
      · rw [if_neg h2] at ha hb
        exact (forall₂_get?_iff.mp h.gen).2 _ a b ha hb
  · -- cnt
    simp only [List.length_map, List.length_append, List.length_cons,
      List.length_nil]
    rw [h.cnt]
    push_cast
    ring
  · -- ids
    intro j' r' hj'
    rw [htes2 j'] at hj'
    rcases Nat.lt_trichotomy j' t.tes.length with hlt | heq | hgt
    · rw [htes1_lt j' hlt] at hj'
      obtain ⟨r0, hr0⟩ : ∃ r0, t.tes[j']? = some r0 :=
        ⟨t.tes[j'], List.getElem?_eq_some.mpr ⟨hlt, rfl⟩⟩
      rw [hr0] at hj'
      simp only [Option.map_some'] at hj'
      obtain rfl := Option.some.inj hj'.symm
      have := h.ids j' r0 hr0
      by_cases hb : r0.pos > pos <;> simp [hb, this]
    · subst heq
      rw [htes1_m] at hj'
      simp only [Option.map_some'] at hj'
      obtain rfl := Option.some.inj hj'.symm
      rw [if_neg (by omega)]
    · rw [List.getElem?_eq_none
        (by simp only [List.length_append, List.length_cons, List.length_nil]; omega)]
        at hj'
      exact absurd hj' (by simp)
  · -- keys
    have hL : List.map (fun e => e.1)
        ((dset s.active_TEs (s.number_of_TEs + 1) (pos, len)).map
          fun e => if e.2.1 > pos then (e.1, e.2.1 + len, e.2.2) else e)
        = s.active_TEs.map (fun e => e.1) ++ [s.number_of_TEs + 1] := by
      rw [keys_mapShift, dset_fresh _ hfresh, List.map_append]
      rfl
    have hR : (((t.tes ++ [({ id := (t.tes.length : Int) + 1, pos := pos,
                              length := len, status := .active } : TErec)]).map
          (fun x : TErec =>
            if x.pos > pos then { x with pos := x.pos + len } else x)).filter
          (fun x => decide (x.status = Status.active))).map TErec.id
        = (t.tes.filter (fun x => decide (x.status = Status.active))).map TErec.id
          ++ [(t.tes.length : Int) + 1] := by
      rw [filter_map_shift, List.filter_append]
      simp only [List.filter_cons, List.filter_nil]
      rw [if_pos (by simp), List.map_append]
      rfl
    refine hL.trans ?_
    rw [h.keys, hcid]
    unfold LinkedListGenome.active_tes
    exact hR.symm
  · -- reca
    intro j' r' hj' hact'
    rw [htes2 j'] at hj'
    rcases Nat.lt_trichotomy j' t.tes.length with hlt | heq | hgt
    · rw [htes1_lt j' hlt] at hj'
      obtain ⟨r0, hr0⟩ : ∃ r0, t.tes[j']? = some r0 :=
        ⟨t.tes[j'], List.getElem?_eq_some.mpr ⟨hlt, rfl⟩⟩
      rw [hr0] at hj'
      simp only [Option.map_some'] at hj'
      obtain rfl := Option.some.inj hj'.symm
      have hstat0 : r0.status = Status.active := by
        by_cases hb : r0.pos > pos
        · rw [if_pos hb] at hact'
          exact hact'
        · rw [if_neg hb] at hact'
          exact hact'
      have hold := h.reca j' r0 hr0 hstat0
      rw [hact2_ne _ (by rw [h.cnt]; omega), hold]
      simp only [Option.map_some']
      by_cases hb : r0.pos > pos
      · rw [if_pos hb, if_pos hb]
      · rw [if_neg hb, if_neg hb]
    · subst heq
      rw [htes1_m] at hj'
      simp only [Option.map_some'] at hj'
      obtain rfl := Option.some.inj hj'.symm
      rw [if_neg (by omega)]
      rw [← hcid]
      exact hact2_id
    · rw [List.getElem?_eq_none
        (by simp only [List.length_append, List.length_cons, List.length_nil]; omega)]
        at hj'
      exact absurd hj' (by simp)
  · -- reci
    intro j' r' hj' hinact'
    rw [htes2 j'] at hj'
    rcases Nat.lt_trichotomy j' t.tes.length with hlt | heq | hgt
    · rw [htes1_lt j' hlt] at hj'
      obtain ⟨r0, hr0⟩ : ∃ r0, t.tes[j']? = some r0 :=
        ⟨t.tes[j'], List.getElem?_eq_some.mpr ⟨hlt, rfl⟩⟩
      rw [hr0] at hj'
      simp only [Option.map_some'] at hj'
      obtain rfl := Option.some.inj hj'.symm
      have hstat0 : r0.status = Status.inactive := by
        by_cases hb : r0.pos > pos
        · rw [if_pos hb] at hinact'
          exact hinact'
        · rw [if_neg hb] at hinact'
          exact hinact'
      rw [hact2_ne _ (by rw [h.cnt]; omega), h.reci j' r0 hr0 hstat0]
      rfl
    · subst heq
      rw [htes1_m] at hj'
      simp only [Option.map_some'] at hj'
      obtain rfl := Option.some.inj hj'.symm
      rw [if_neg (by omega : ¬ pos > pos)] at hinact'
      exact absurd hinact' (by simp)
    · rw [List.getElem?_eq_none
        (by simp only [List.length_append, List.length_cons, List.length_nil]; omega)]
        at hj'
      exact absurd hj' (by simp)
  · -- rng
    intro k' st' ln' hk'
    by_cases hkid : k' = s.number_of_TEs + 1
    · subst hkid
      rw [hact2_id] at hk'
      obtain ⟨e1, e2⟩ : pos = st' ∧ len = ln' := by
        have hh : ((pos, len) : Int × Int) = (st', ln') := by injection hk'
        exact ⟨congrArg Prod.fst hh, congrArg Prod.snd hh⟩
      rw [hLlen]
      push_cast
      omega
    · rw [hact2_ne _ hkid] at hk'
      rcases hold : dget s.active_TEs k' with _ | ⟨st0, ln0⟩
      · rw [hold] at hk'
        exact absurd hk' (by simp)
      · rw [hold] at hk'
        simp only [Option.map_some'] at hk'
        obtain ⟨h1, h2, h3⟩ := h.rng k' st0 ln0 hold
        rw [hLlen]
        by_cases hb : st0 > pos
        · rw [if_pos hb] at hk'
          obtain ⟨e1, e2⟩ : st0 + len = st' ∧ ln0 = ln' := by
            have hh : ((st0 + len, ln0) : Int × Int) = (st', ln') := by injection hk'
            exact ⟨congrArg Prod.fst hh, congrArg Prod.snd hh⟩
          push_cast
          omega
        · rw [if_neg hb] at hk'
          obtain ⟨e1, e2⟩ : st0 = st' ∧ ln0 = ln' := by
            have hh : ((st0, ln0) : Int × Int) = (st', ln') := by injection hk'
            exact ⟨congrArg Prod.fst hh, congrArg Prod.snd hh⟩
          push_cast
          omega
  · -- cov
    intro k' st' ln' hk' p hp1 hp2
    rw [hLget p]
    by_cases hkid : k' = s.number_of_TEs + 1
    · subst hkid
      rw [hact2_id] at hk'
      obtain ⟨e1, e2⟩ : pos = st' ∧ len = ln' := by
        have hh : ((pos, len) : Int × Int) = (st', ln') := by injection hk'
        exact ⟨congrArg Prod.fst hh, congrArg Prod.snd hh⟩
      rw [if_neg (by omega), if_pos (by omega)]
    · rw [hact2_ne _ hkid] at hk'
      rcases hold : dget s.active_TEs k' with _ | ⟨st0, ln0⟩
      · rw [hold] at hk'
        exact absurd hk' (by simp)
      · rw [hold] at hk'
        simp only [Option.map_some'] at hk'
        obtain ⟨hb1, hb2, hb3⟩ := h.rng k' st0 ln0 hold
        rcases hNoCover k' st0 ln0 hold with hside | hside
        · -- entirely before pos: not shifted
          have : ¬ st0 > pos := by omega
          rw [if_neg this] at hk'
          obtain ⟨e1, e2⟩ : st0 = st' ∧ ln0 = ln' := by
            have hh : ((st0, ln0) : Int × Int) = (st', ln') := by injection hk'
            exact ⟨congrArg Prod.fst hh, congrArg Prod.snd hh⟩
          rw [if_pos (by omega)]
          exact h.cov k' st0 ln0 hold p (by omega) (by omega)
        · -- entirely after pos: shifted by len
          have hb : st0 > pos := by omega
          rw [if_pos hb] at hk'
          obtain ⟨e1, e2⟩ : st0 + len = st' ∧ ln0 = ln' := by
            have hh : ((st0 + len, ln0) : Int × Int) = (st', ln') := by injection hk'
            exact ⟨congrArg Prod.fst hh, congrArg Prod.snd hh⟩
          rw [if_neg (by omega), if_neg (by omega)]
          exact h.cov k' st0 ln0 hold (p - len.toNat) (by omega) (by push_cast; omega)
  · -- asym
    intro p c k' hp hc
    rw [hLget p] at hp
    by_cases h1 : p < pos.toNat
    · rw [if_pos h1] at hp
      obtain ⟨st0, ln0, hold, hr1, hr2⟩ := h.asym p c k' hp hc
      have hkid : k' ≠ s.number_of_TEs + 1 := by
        intro hcon
        have hmem : k' ∈ s.active_TEs.map (fun e => e.1) :=
          List.mem_map.mpr ⟨(k', st0, ln0), dget_mem hold, rfl⟩
        exact hfresh (hcon ▸ hmem)
      rcases hNoCover k' st0 ln0 hold with hside | hside
      · refine ⟨st0, ln0, ?_, hr1, hr2⟩
        rw [hact2_ne _ hkid, hold]
        simp only [Option.map_some']
        rw [if_neg (by omega)]
      · omega
    · rw [if_neg h1] at hp
      by_cases h2 : p < pos.toNat + len.toNat
      · rw [if_pos h2] at hp
        obtain ⟨rfl, rfl⟩ : c = 'A' ∧ s.number_of_TEs + 1 = k' := by
          have hh : (('A', s.number_of_TEs + 1) : Char × Int) = (c, k') := by
            injection hp
          exact ⟨(congrArg Prod.fst hh).symm, congrArg Prod.snd hh⟩
        exact ⟨pos, len, hact2_id, by omega, by push_cast; omega⟩
      · rw [if_neg h2] at hp
        obtain ⟨st0, ln0, hold, hr1, hr2⟩ := h.asym _ c k' hp hc
        have hkid : k' ≠ s.number_of_TEs + 1 := by
          intro hcon
          have hmem : k' ∈ s.active_TEs.map (fun e => e.1) :=
            List.mem_map.mpr ⟨(k', st0, ln0), dget_mem hold, rfl⟩
          exact hfresh (hcon ▸ hmem)
        rcases hNoCover k' st0 ln0 hold with hside | hside
        · omega
        · refine ⟨st0 + len, ln0, ?_, by push_cast at hr1 hr2 ⊢; omega,
            by push_cast at hr1 hr2 ⊢; omega⟩
          rw [hact2_ne _ hkid, hold]
          simp only [Option.map_some']
          rw [if_pos (by omega)]

/-- A valid `insert_te` (position inside `[0, len)`, length at least 1):
both realizations return the same fresh id and the invariant is
preserved. -/
theorem insert_sim {s : ListGenome} {t : LinkedListGenome} (h : SimInv s t)
    {pos len : Int}
    (hpos0 : 0 ≤ pos) (hposlt : pos < (s.genome.length : Int)) (hlen : 1 ≤ len) :
    (s.insert_te pos len).1 = .ok (s.number_of_TEs + 1) ∧
    (t.insert_te pos len).1 = .ok (s.number_of_TEs + 1) ∧
    SimInv (s.insert_te pos len).2 (t.insert_te pos len).2 := by
  have hplt : pos.toNat < s.genome.length := by omega
  obtain ⟨⟨c, tid⟩, hsym⟩ : ∃ e, s.genome[pos.toNat]? = some e :=
    ⟨s.genome[pos.toNat], List.getElem?_eq_some.mpr ⟨hplt, rfl⟩⟩
  have hpltK : pos.toNat < t.genome.length := by rw [← h.glen]; exact hplt
  obtain ⟨nuc, hnuc⟩ : ∃ nu, t.genome[pos.toNat]? = some nu :=
    ⟨t.genome[pos.toNat], List.getElem?_eq_some.mpr ⟨hpltK, rfl⟩⟩
  have hrel := (forall₂_get?_iff.mp h.gen).2 pos.toNat _ _ hsym hnuc
  have hposltK : pos < (t.genome.length : Int) := by rw [← h.glen]; exact hposlt
  by_cases hc : c = 'A'
  · -- collision with TE `tid`
    subst hc
    have hnid : nuc.id = some tid := hrel.2 rfl
    have hnsym : nuc.symbol = 'A' := hrel.1
    obtain ⟨st, ln, hk, hcov1, hcov2⟩ := h.asym pos.toNat 'A' tid hsym rfl
    obtain ⟨h0, h1ln, h1⟩ := h.rng _ _ _ hk
    obtain ⟨j, r, hres, hjk, hrec, hstat, hid, hrpos, hrlen⟩ := h.active_lookup hk
    obtain ⟨gL, hinsL, hlenL, hgetL⟩ :=
      ListGenome.insert_te_spec_col s len hpos0 hposlt hsym hk h0 (by omega) h1
    obtain ⟨gK, hinsK, hlenK, hgetK⟩ :=
      LinkedListGenome.insert_te_spec_colK t len hpos0 hposltK hnuc hnsym hnid hres hrec
        (by rw [hrpos]; exact h0) (by rw [hrlen]; omega)
        (by rw [hrpos, hrlen, ← h.glen]; exact h1) hlen
    obtain ⟨gL2, hdisL, hdlenL, hdgetL⟩ :=
      ListGenome.disable_te_spec s hk h0 (by omega) h1
    obtain ⟨gK2, hdisK, hdlenK, hdgetK⟩ :=
      LinkedListGenome.disable_te_specK t hres hrec (by rw [hrpos]; exact h0)
        (by rw [hrlen]; omega) (by rw [hrpos, hrlen, ← h.glen]; exact h1)
    have hmid := (disable_sim h (List.mem_map.mpr ⟨(tid, st, ln), dget_mem hk, rfl⟩)).2.2
    rw [hdisL, hdisK] at hmid
    have hgeq : gL = gL2 := List.ext_getElem? fun p => by rw [hgetL p, hdgetL p]
    have hgeqK : gK = gK2 := by
      refine List.ext_getElem? fun p => ?_
      rw [hgetK p, hdgetK p, hrpos, hrlen]
      by_cases hin : st ≤ (p : Int) ∧ (p : Int) < st + ln
      · rw [if_pos hin, if_pos hin]
        have hsp := h.cov tid st ln hk p hin.1 hin.2
        have hpK : p < t.genome.length := by
          rw [← h.glen]
          omega
        obtain ⟨nup, hnup⟩ : ∃ nu, t.genome[p]? = some nu :=
          ⟨t.genome[p], List.getElem?_eq_some.mpr ⟨hpK, rfl⟩⟩
        have hrelp := (forall₂_get?_iff.mp h.gen).2 p _ _ hsp hnup
        rw [hnup]
        simp only [Option.map_some']
        rw [hrelp.2 rfl]
      · rw [if_neg hin, if_neg hin]
    have happly := splice_sim hmid (dset s.inactive_TEs tid (st, ln)) hpos0
      (by show pos < (gL2.length : Int); rw [hdlenL]; exact hposlt) hlen
      (by
        intro k' hcon
        have hposrange : st ≤ ((pos.toNat : Nat) : Int) ∧
            ((pos.toNat : Nat) : Int) < st + ln := ⟨hcov1, hcov2⟩
        rw [hdgetL pos.toNat, if_pos hposrange] at hcon
        have : 'x' = 'A' := by
          have hh : (('x', tid) : Char × Int) = ('A', k') := by injection hcon
          exact congrArg Prod.fst hh
        exact absurd this (by decide))
    rw [List.length_set] at happly
    refine ⟨by rw [hinsL], by rw [hinsK, ← h.cnt], ?_⟩
    rw [hinsL, hinsK, hgeq, hgeqK]
    exact happly
  · -- no collision
    have hnsym : nuc.symbol ≠ 'A' := by
      rw [hrel.1]
      exact hc
    have hinsL := ListGenome.insert_te_spec_nocol s len hpos0 hposlt hsym hc
    have hinsK := LinkedListGenome.insert_te_spec_nocolK t len hpos0 hposltK hnuc hnsym hlen
    have happly := splice_sim h s.inactive_TEs hpos0 hposlt hlen
      (by
        intro k' hcon
        rw [hsym] at hcon
        have : c = 'A' := by
          have hh : ((c, tid) : Char × Int) = ('A', k') := by injection hcon
          exact congrArg Prod.fst hh
        exact hc this)
    refine ⟨by rw [hinsL], by rw [hinsK, ← h.cnt], ?_⟩
    rw [hinsL, hinsK]
    exact happly

/-- `copy_te` on a currently-active id: both realizations delegate to
the same valid `insert_te`, return the same fresh id, and the invariant
is preserved. -/
theorem copy_sim {s : ListGenome} {t : LinkedListGenome} (h : SimInv s t)
    {te : Int} (off : Int) (hk : te ∈ s.active_TEs.map (fun e => e.1)) :
    (s.copy_te te off).1 = .ok (s.number_of_TEs + 1) ∧
    (t.copy_te te off).1 = .ok (some (s.number_of_TEs + 1)) ∧
    SimInv (s.copy_te te off).2 (t.copy_te te off).2 := by
  obtain ⟨⟨st, ln⟩, hget⟩ := dget_isSome_of_mem_keys hk
  obtain ⟨h0, hln, h1⟩ := h.rng te st ln hget
  have hglen : s.genome.length ≠ 0 := by omega
  have hglenK : t.genome.length ≠ 0 := by rw [← h.glen]; omega
  obtain ⟨j, r, hres, hjk, hrec, hstat, hid, hrpos, hrlen⟩ := h.active_lookup hget
  have hglenZ : (0 : Int) < (s.genome.length : Int) := by
    have : 0 < s.genome.length := Nat.pos_of_ne_zero hglen
    exact_mod_cast this
  have hpos0 : 0 ≤ (st + off) % (s.genome.length : Int) :=
    Int.emod_nonneg _ hglenZ.ne'
  have hposlt : (st + off) % (s.genome.length : Int) < (s.genome.length : Int) :=
    Int.emod_lt_of_pos _ hglenZ
  obtain ⟨r1, r2, r3⟩ := insert_sim h hpos0 hposlt hln
  have hLeq : s.copy_te te off =
      s.insert_te ((st + off) % (s.genome.length : Int)) ln := by
    simp only [ListGenome.copy_te, hget, if_neg hglen]
  have hKeq : t.copy_te te off =
      ((t.insert_te ((st + off) % (s.genome.length : Int)) ln).1.map some,
       (t.insert_te ((st + off) % (s.genome.length : Int)) ln).2) := by
    simp only [LinkedListGenome.copy_te, hres, hrec, if_pos hstat, if_neg hglenK]
    rw [hrpos, hrlen, Int.add_comm off st, ← h.glen]
  refine ⟨by rw [hLeq]; exact r1, ?_, ?_⟩
  · rw [hKeq]
    show ((t.insert_te _ _).1.map some) = _
    rw [r2]
    rfl
  · rw [hLeq, hKeq]
    exact r3

/-- Under the invariant the two realizations return the same
`active_tes` list. -/
theorem SimInv.active_eq {s : ListGenome} {t : LinkedListGenome} (h : SimInv s t) :
    s.active_tes = t.active_tes :=
  h.keys

/-- Under the invariant the restricted-validity check agrees on the two
realizations. -/
theorem validOp_eq {s : ListGenome} {t : LinkedListGenome} (h : SimInv s t)
    (op : Op) : s.validOp op = t.validOp op := by
  cases op with
  | insert pos len =>
    show (decide (0 ≤ pos) && decide (pos < (s.genome.length : Int)) && decide (1 ≤ len)) = _
    rw [h.glen]
    rfl
  | copy te off =>
    show s.active_tes.contains te = t.active_tes.contains te
    rw [h.active_eq]
  | disable te =>
    show s.active_tes.contains te = t.active_tes.contains te
    rw [h.active_eq]

/-- One valid step: the observable result agrees and the invariant is
preserved. -/
theorem step_sim {s : ListGenome} {t : LinkedListGenome} (h : SimInv s t)
    (op : Op) (hv : s.validOp op = true) :
    (s.step op).1 = (t.step op).1 ∧ SimInv (s.step op).2 (t.step op).2 := by
  cases op with
  | insert pos len =>
    have hv' : (0 ≤ pos ∧ pos < (s.genome.length : Int)) ∧ 1 ≤ len := by
      simpa [ListGenome.validOp, Bool.and_eq_true, decide_eq_true_eq] using hv
    obtain ⟨r1, r2, r3⟩ := insert_sim h hv'.1.1 hv'.1.2 hv'.2
    exact ⟨by simp only [ListGenome.step, LinkedListGenome.step, r1, r2], by
      simpa only [ListGenome.step, LinkedListGenome.step] using r3⟩
  | copy te off =>
    have hv' : te ∈ s.active_TEs.map (fun e => e.1) := by
      have : te ∈ s.active_tes := by simpa [ListGenome.validOp] using hv
      exact this
    obtain ⟨r1, r2, r3⟩ := copy_sim h off hv'
    exact ⟨by simp only [ListGenome.step, LinkedListGenome.step, r1, r2]; rfl, by
      simpa only [ListGenome.step, LinkedListGenome.step] using r3⟩
  | disable te =>
    have hv' : te ∈ s.active_TEs.map (fun e => e.1) := by
      have : te ∈ s.active_tes := by simpa [ListGenome.validOp] using hv
      exact this
    obtain ⟨r1, r2, r3⟩ := disable_sim h hv'
    exact ⟨by simp only [ListGenome.step, LinkedListGenome.step, r1, r2], by
      simpa only [ListGenome.step, LinkedListGenome.step] using r3⟩

theorem map_obs_consL (rv : Except PyErr (Option Int))
    (X : Option (List (Except PyErr (Option Int)) × ListGenome)) :
    ((X.map fun q => (rv :: q.1, q.2)).map
        fun q => (q.1, q.2.render, q.2.size, q.2.active_tes)) =
      ((X.map fun q => (q.1, q.2.render, q.2.size, q.2.active_tes)).map
        fun z => (rv :: z.1, z.2)) := by
  cases X <;> rfl

theorem map_obs_consK (rv : Except PyErr (Option Int))
    (X : Option (List (Except PyErr (Option Int)) × LinkedListGenome)) :
    ((X.map fun q => (rv :: q.1, q.2)).map
        fun q => (q.1, q.2.render, q.2.size, q.2.active_tes)) =
      ((X.map fun q => (q.1, q.2.render, q.2.size, q.2.active_tes)).map
        fun z => (rv :: z.1, z.2)) := by
  cases X <;> rfl

/-- The trace-level simulation: starting from any pair of states in the
invariant, running the same operations under the restricted validity
yields the same success/rejection behavior, the same list of per-call
return values, and final states with the same render, length and
active-TE list. -/
theorem runValid_sim {s : ListGenome} {t : LinkedListGenome} (h : SimInv s t)
    (ops : List Op) :
    ((s.runValid ops).map fun q => (q.1, q.2.render, q.2.size, q.2.active_tes)) =
    ((t.runValid ops).map fun q => (q.1, q.2.render, q.2.size, q.2.active_tes)) := by
  induction ops generalizing s t with
  | nil =>
    show some ([], s.render, s.size, s.active_tes) = some ([], t.render, t.size, t.active_tes)
    rw [h.render_eq, h.active_eq]
    show some ([], t.render, s.genome.length, t.active_tes) = _
    rw [h.glen]
    rfl
  | cons op ops ih =>
    show ((if s.validOp op then _ else none).map _) = ((if t.validOp op then _ else none).map _)
    by_cases hv : s.validOp op = true
    · rw [if_pos hv, if_pos ((validOp_eq h op) ▸ hv)]
      obtain ⟨hres, hinv⟩ := step_sim h op hv
      rw [map_obs_consL, map_obs_consK, ih hinv, hres]
    · rw [if_neg hv, if_neg (by rw [← validOp_eq h op]; exact hv)]
      rfl

/-- C1, amended: the two realizations are observationally equivalent on
every sequence of calls that satisfies the preconditions *and* only ever
passes a currently-Active id to `copy_te`/`disable_te` (the
counterexample shows the original claim fails when an Inactive id is
passed): started from the same initial length, the runs accept the same
traces, return the same value at every call, and end with the same
length, render string and `active_tes` list. -/
theorem c1_list_linked_equivalent (n : Nat) (ops : List Op) :
    (((ListGenome.init n).runValid ops).map
      fun q => (q.1, q.2.render, q.2.size, q.2.active_tes)) =
    (((LinkedListGenome.init n).runValid ops).map
      fun q => (q.1, q.2.render, q.2.size, q.2.active_tes)) :=
  runValid_sim (simInv_init n) ops

/-- Running the same restricted-valid trace on two states in simulation
keeps the final states in simulation. -/
theorem runValid_simInv {s : ListGenome} {t : LinkedListGenome} (h : SimInv s t)
    (ops : List Op)
    {qL : List (Except PyErr (Option Int)) × ListGenome}
    {qK : List (Except PyErr (Option Int)) × LinkedListGenome}
    (hL : s.runValid ops = some qL) (hK : t.runValid ops = some qK) :
    SimInv qL.2 qK.2 := by
  induction ops generalizing s t qL qK with
  | nil =>
    obtain rfl : ([], s) = qL := by injection hL
    obtain rfl : ([], t) = qK := by injection hK
    exact h
  | cons op ops ih =>
    rw [ListGenome.runValid] at hL
    rw [LinkedListGenome.runValid] at hK
    by_cases hv : s.validOp op = true
    · rw [if_pos hv] at hL
      rw [if_pos ((validOp_eq h op) ▸ hv)] at hK
      obtain ⟨qL', hL', hqL⟩ := Option.map_eq_some'.mp hL
      obtain ⟨qK', hK', hqK⟩ := Option.map_eq_some'.mp hK
      have hrec := ih (step_sim h op hv).2 hL' hK'
      have e1 : qL.2 = qL'.2 := by rw [← hqL]
      have e2 : qK.2 = qK'.2 := by rw [← hqK]
      rw [e1, e2]
      exact hrec
    · rw [if_neg hv] at hL
      exact absurd hL (by simp)

/-- The invariant between the final states of the two realizations run
from the same initial length over the same restricted-valid trace. -/
theorem simInv_of_runValid (n : Nat) (ops : List Op)
    {qL : List (Except PyErr (Option Int)) × ListGenome}
    {qK : List (Except PyErr (Option Int)) × LinkedListGenome}
    (hL : (ListGenome.init n).runValid ops = some qL)
    (hK : (LinkedListGenome.init n).runValid ops = some qK) :
    SimInv qL.2 qK.2 :=
  runValid_simInv (simInv_init n) ops hL hK

/-- C5, amended: in every state reached by operations that satisfy the
preconditions and pass only currently-Active ids to
`copy_te`/`disable_te` (the counterexample shows the original claim
fails once `disable_te` is allowed on an already-Inactive id), the
ranges of two distinct Active TE records do not intersect, on both
realizations; moreover every Active range lies inside `[0, length)`
with a positive length, so the ranges do not wrap and circular
intersection coincides with plain intersection. -/
theorem c5_active_ranges_disjoint (n : Nat) (ops : List Op)
    {qL : List (Except PyErr (Option Int)) × ListGenome}
    {qK : List (Except PyErr (Option Int)) × LinkedListGenome}
    (hL : (ListGenome.init n).runValid ops = some qL)
    (hK : (LinkedListGenome.init n).runValid ops = some qK) :
    (∀ k st ln k' st' ln', dget qL.2.active_TEs k = some (st, ln) →
      dget qL.2.active_TEs k' = some (st', ln') → k ≠ k' →
      ∀ p : Int, st ≤ p → p < st + ln → ¬ (st' ≤ p ∧ p < st' + ln'))
    ∧ (∀ k st ln, dget qL.2.active_TEs k = some (st, ln) →
        0 ≤ st ∧ 1 ≤ ln ∧ st + ln ≤ (qL.2.size : Int))
    ∧ (∀ (j j' : Nat) (r r' : TErec), qK.2.tes[j]? = some r →
        qK.2.tes[j']? = some r' → r.status = .active → r'.status = .active →
        j ≠ j' → ∀ p : Int, r.pos ≤ p → p < r.pos + r.length →
        ¬ (r'.pos ≤ p ∧ p < r'.pos + r'.length))
    ∧ (∀ (j : Nat) (r : TErec), qK.2.tes[j]? = some r → r.status = .active →
        0 ≤ r.pos ∧ 1 ≤ r.length ∧ r.pos + r.length ≤ (qK.2.size : Int)) := by
  have h := simInv_of_runValid n ops hL hK
  refine ⟨fun k st ln k' st' ln' hk hk' hne => h.disjoint hk hk' hne,
    fun k st ln hk => h.rng k st ln hk, ?_, ?_⟩
  · intro j j' r r' hj hj' hs hs' hne
    have h1 := h.reca j r hj hs
    have h2 := h.reca j' r' hj' hs'
    exact h.disjoint h1 h2 (by omega)
  · intro j r hj hs
    have h1 := h.reca j r hj hs
    have h2 := h.rng _ _ _ h1
    show 0 ≤ r.pos ∧ 1 ≤ r.length ∧ r.pos + r.length ≤ (qK.2.genome.length : Int)
    rw [← h.glen]
    exact h2

/-- C5, witness: after `insert_te(2,3)`; `insert_te(7,1)` on initial
length 10, the two Active records `(2,3)` and `(7,1)` exist and their
ranges are disjoint (checked at position 3), and TE 1's range is
in-bounds, on both realizations. -/
theorem c5_active_ranges_disjoint_witness :
    dget ([(1, 2, 3), (2, 7, 1)] : List DEntry) 1 = some (2, 3) ∧
    dget ([(1, 2, 3), (2, 7, 1)] : List DEntry) 2 = some (7, 1) ∧
    ¬ ((7 : Int) ≤ 3 ∧ (3 : Int) < 7 + 1) ∧
    (0 ≤ (2 : Int) ∧ 1 ≤ (3 : Int) ∧ (2 : Int) + 3 ≤
      ((⟨[('-', 0), ('-', 0), ('A', 1), ('A', 1), ('A', 1), ('-', 0), ('-', 0),
          ('A', 2), ('-', 0), ('-', 0), ('-', 0), ('-', 0), ('-', 0), ('-', 0)],
        [(1, 2, 3), (2, 7, 1)], [], 2⟩ : ListGenome).size : Int)) :=
  ⟨by decide, by decide,
    (@c5_active_ranges_disjoint 10 [.insert 2 3, .insert 7 1]
      ([Except.ok (some 1), Except.ok (some 2)],
        ⟨[('-', 0), ('-', 0), ('A', 1), ('A', 1), ('A', 1), ('-', 0), ('-', 0),
          ('A', 2), ('-', 0), ('-', 0), ('-', 0), ('-', 0), ('-', 0), ('-', 0)],
        [(1, 2, 3), (2, 7, 1)], [], 2⟩)
      ([Except.ok (some 1), Except.ok (some 2)],
        ⟨[⟨'-', none⟩, ⟨'-', none⟩, ⟨'A', some 1⟩, ⟨'A', some 1⟩, ⟨'A', some 1⟩,
          ⟨'-', none⟩, ⟨'-', none⟩, ⟨'A', some 2⟩, ⟨'-', none⟩, ⟨'-', none⟩,
          ⟨'-', none⟩, ⟨'-', none⟩, ⟨'-', none⟩, ⟨'-', none⟩],
        [⟨1, 2, 3, .active⟩, ⟨2, 7, 1, .active⟩]⟩)
      (by decide) (by decide)).1 1 2 3 2 7 1 (by decide) (by decide)
      (by decide) 3 (by decide) (by decide),
    (@c5_active_ranges_disjoint 10 [.insert 2 3, .insert 7 1]
      ([Except.ok (some 1), Except.ok (some 2)],
        ⟨[('-', 0), ('-', 0), ('A', 1), ('A', 1), ('A', 1), ('-', 0), ('-', 0),
          ('A', 2), ('-', 0), ('-', 0), ('-', 0), ('-', 0), ('-', 0), ('-', 0)],
        [(1, 2, 3), (2, 7, 1)], [], 2⟩)
      ([Except.ok (some 1), Except.ok (some 2)],
        ⟨[⟨'-', none⟩, ⟨'-', none⟩, ⟨'A', some 1⟩, ⟨'A', some 1⟩, ⟨'A', some 1⟩,
          ⟨'-', none⟩, ⟨'-', none⟩, ⟨'A', some 2⟩, ⟨'-', none⟩, ⟨'-', none⟩,
          ⟨'-', none⟩, ⟨'-', none⟩, ⟨'-', none⟩, ⟨'-', none⟩],
        [⟨1, 2, 3, .active⟩, ⟨2, 7, 1, .active⟩]⟩)
      (by decide) (by decide)).2.1 1 2 3 (by decide)⟩

/-! ## Genome length accounting (C7) -/

theorem pySet_length {l : List α} {i : Int} {a : α} {l2 : List α}
    (h : pySet l i a = some l2) : l2.length = l.length := by
  unfold pySet at h
  rcases hr : pyResolve l.length i with _ | j
  · rw [hr] at h
    exact absurd h (by simp)
  · rw [hr] at h
    simp only [Option.map_some'] at h
    obtain rfl := Option.some.inj h.symm
    exact List.length_set l j a

theorem setRangeL_len (g : List (Char × Int)) (st : Int) (cnt : Nat) (id : Int) :
    (setRangeL g st cnt id).2.length = g.length := by
  induction cnt generalizing g st with
  | zero => rfl
  | succ c ih =>
    rw [setRangeL]
    rcases hp : pySet g st ('x', id) with _ | g2
    · rfl
    · exact (ih g2 (st + 1)).trans (pySet_length hp)

theorem setXRangeK_len (g : List Nucleotide) (st : Int) (cnt : Nat) (idOld : Int) :
    (setXRangeK g st cnt idOld).2.length = g.length := by
  induction cnt generalizing g st with
  | zero => rfl
  | succ c ih =>
    rw [setXRangeK]
    by_cases hb : 0 ≤ st ∧ st < (g.length : Int)
    · rw [if_pos hb]
      exact (ih _ (st + 1)).trans (List.length_set _ _ _)
    · rw [if_neg hb]

theorem disRangeK_len (g : List Nucleotide) (st : Int) (cnt : Nat) :
    (disRangeK g st cnt).2.length = g.length := by
  induction cnt generalizing g st with
  | zero => rfl
  | succ c ih =>
    rw [disRangeK]
    rcases hp : seqGet g st with _ | nu
    · rfl
    · exact (ih _ (st + 1)).trans (List.length_set _ _ _)

theorem ListGenome.disable_len (s : ListGenome) (te : Int) :
    (s.disable_te te).2.genome.length = s.genome.length := by
  rcases hd : dget s.active_TEs te with _ | ⟨st, ln⟩
  · simp only [ListGenome.disable_te, hd]
  · rcases hr : setRangeL s.genome st ln.toNat te with ⟨res, g2⟩
    have hlen : g2.length = s.genome.length := by
      have h2 := setRangeL_len s.genome st ln.toNat te
      rw [hr] at h2
      exact h2
    rcases res with e | u
    · simp only [ListGenome.disable_te, hd, hr]
      exact hlen
    · simp only [ListGenome.disable_te, hd, hr]
      exact hlen

theorem LinkedListGenome.disable_lenK (t : LinkedListGenome) (te : Int) :
    (t.disable_te te).2.genome.length = t.genome.length := by
  rcases h1 : pyResolve t.tes.length (te - 1) with _ | j
  · simp only [LinkedListGenome.disable_te, h1]
  · rcases h2 : t.tes[j]? with _ | r
    · simp only [LinkedListGenome.disable_te, h1, h2]
    · rcases hr : disRangeK t.genome r.pos r.length.toNat with ⟨res, g2⟩
      have hlen : g2.length = t.genome.length := by
        have h3 := disRangeK_len t.genome r.pos r.length.toNat
        rw [hr] at h3
        exact h3
      rcases res with e | u
      · simp only [LinkedListGenome.disable_te, h1, h2, hr]
        exact hlen
      · simp only [LinkedListGenome.disable_te, h1, h2, hr]
        exact hlen

theorem sliceInsert_length (l : List α) (i : Int) (xs : List α) :
    (sliceInsert l i xs).length = l.length + xs.length := by
  unfold sliceInsert
  exact splice_length l (slicePos l.length i) xs

theorem ListGenome.insert_mono (s : ListGenome) (pos len : Int) :
    s.genome.length ≤ (s.insert_te pos len).2.genome.length := by
  rcases hg : pyGet s.genome pos with _ | ⟨c, tid⟩
  · simp only [ListGenome.insert_te, hg]
    exact le_refl _
  · rcases hs : (if c = 'A'
        then ListGenome.disable_te { s with number_of_TEs := s.number_of_TEs + 1 } tid
        else (.ok (), { s with number_of_TEs := s.number_of_TEs + 1 }))
        with ⟨res, s2⟩
    have hs2len : s2.genome.length = s.genome.length := by
      by_cases hc : c = 'A'
      · rw [if_pos hc] at hs
        have h2 := ListGenome.disable_len
          { s with number_of_TEs := s.number_of_TEs + 1 } tid
        rw [hs] at h2
        exact h2
      · rw [if_neg hc] at hs
        obtain ⟨e1, e2⟩ : (Except.ok () : Except PyErr Unit) = res ∧
            ({ s with number_of_TEs := s.number_of_TEs + 1 } : ListGenome) = s2 := by
          constructor
          · injection hs
          · injection hs
        rw [← e2]
    rcases res with e | u
    · simp only [ListGenome.insert_te, hg, hs]
      omega
    · simp only [ListGenome.insert_te, hg, hs]
      rw [sliceInsert_length]
      omega

theorem LinkedListGenome.insert_monoK (t : LinkedListGenome) (pos len : Int) :
    t.genome.length ≤ (t.insert_te pos len).2.genome.length := by
  rcases hg : seqGet t.genome pos with _ | nuc
  · simp only [LinkedListGenome.insert_te, hg]
    exact le_refl _
  · by_cases hc : nuc.symbol = 'A'
    · rcases hid : nuc.id with _ | idOld
      · simp only [LinkedListGenome.insert_te, hg, if_pos hc, hid]
        exact le_refl _
      · rcases h1 : pyResolve t.tes.length (idOld - 1) with _ | j
        · simp only [LinkedListGenome.insert_te, hg, if_pos hc, hid, h1]
          exact le_refl _
        · rcases h2 : t.tes[j]? with _ | teOld
          · simp only [LinkedListGenome.insert_te, hg, if_pos hc, hid, h1, h2]
            exact le_refl _
          · rcases h3 : setXRangeK t.genome teOld.pos teOld.length.toNat idOld
              with ⟨res2, g2⟩
            have hg2 : g2.length = t.genome.length := by
              have h4 := setXRangeK_len t.genome teOld.pos teOld.length.toNat idOld
              rw [h3] at h4
              exact h4
            rcases res2 with e | u
            · simp only [LinkedListGenome.insert_te, hg, if_pos hc, hid, h1, h2, h3]
              omega
            · by_cases hlen1 : len < 1
              · simp only [LinkedListGenome.insert_te, hg, if_pos hc, hid, h1, h2,
                  h3, if_pos hlen1]
                omega
              · simp only [LinkedListGenome.insert_te, hg, if_pos hc, hid, h1, h2,
                  h3, if_neg hlen1]
                rw [splice_length, List.length_replicate]
                omega
    · by_cases hlen1 : len < 1
      · simp only [LinkedListGenome.insert_te, hg, if_neg hc, if_pos hlen1]
        exact le_refl _
      · simp only [LinkedListGenome.insert_te, hg, if_neg hc, if_neg hlen1]
        rw [splice_length, List.length_replicate]
        omega

theorem ListGenome.copy_mono (s : ListGenome) (te off : Int) :
    s.genome.length ≤ (s.copy_te te off).2.genome.length := by
  rcases hd : dget s.active_TEs te with _ | ⟨st, ln⟩
  · simp only [ListGenome.copy_te, hd]
    exact le_refl _
  · by_cases hz : s.genome.length = 0
    · simp only [ListGenome.copy_te, hd, if_pos hz]
      exact le_refl _
    · simp only [ListGenome.copy_te, hd, if_neg hz]
      exact ListGenome.insert_mono s _ ln

theorem LinkedListGenome.copy_monoK (t : LinkedListGenome) (te off : Int) :
    t.genome.length ≤ (t.copy_te te off).2.genome.length := by
  rcases h1 : pyResolve t.tes.length (te - 1) with _ | j
  · simp only [LinkedListGenome.copy_te, h1]
    exact le_refl _
  · rcases h2 : t.tes[j]? with _ | r
    · simp only [LinkedListGenome.copy_te, h1, h2]
      exact le_refl _
    · by_cases hst : r.status = Status.active
      · by_cases hz : t.genome.length = 0
        · simp only [LinkedListGenome.copy_te, h1, h2, if_pos hst, if_pos hz]
          exact le_refl _
        · simp only [LinkedListGenome.copy_te, h1, h2, if_pos hst, if_neg hz]
          exact LinkedListGenome.insert_monoK t _ r.length
      · simp only [LinkedListGenome.copy_te, h1, h2, if_neg hst]
        exact le_refl _

/-- The genome length never decreases under any single operation, from
any state, on either realization (failing calls included). -/
theorem step_mono (s : ListGenome) (t : LinkedListGenome) (op : Op) :
    s.size ≤ ((s.step op).2).size ∧ t.size ≤ ((t.step op).2).size := by
  cases op with
  | insert pos len =>
    exact ⟨ListGenome.insert_mono s pos len, LinkedListGenome.insert_monoK t pos len⟩
  | copy te off =>
    exact ⟨ListGenome.copy_mono s te off, LinkedListGenome.copy_monoK t te off⟩
  | disable te =>
    constructor
    · show s.genome.length ≤ (s.disable_te te).2.genome.length
      rw [ListGenome.disable_len]
    · show t.genome.length ≤ (t.disable_te te).2.genome.length
      rw [LinkedListGenome.disable_lenK]

/-- A valid insertion grows both genomes by exactly the inserted
length. -/
theorem insert_size_sim {s : ListGenome} {t : LinkedListGenome} (h : SimInv s t)
    {pos len : Int}
    (hpos0 : 0 ≤ pos) (hposlt : pos < (s.genome.length : Int)) (hlen : 1 ≤ len) :
    (s.insert_te pos len).2.genome.length = s.genome.length + len.toNat ∧
    (t.insert_te pos len).2.genome.length = t.genome.length + len.toNat := by
  have hplt : pos.toNat < s.genome.length := by omega
  obtain ⟨⟨c, tid⟩, hsym⟩ : ∃ e, s.genome[pos.toNat]? = some e :=
    ⟨s.genome[pos.toNat], List.getElem?_eq_some.mpr ⟨hplt, rfl⟩⟩
  have hpltK : pos.toNat < t.genome.length := by rw [← h.glen]; exact hplt
  obtain ⟨nuc, hnuc⟩ : ∃ nu, t.genome[pos.toNat]? = some nu :=
    ⟨t.genome[pos.toNat], List.getElem?_eq_some.mpr ⟨hpltK, rfl⟩⟩
  have hrel := (forall₂_get?_iff.mp h.gen).2 pos.toNat _ _ hsym hnuc
  have hposltK : pos < (t.genome.length : Int) := by rw [← h.glen]; exact hposlt
  by_cases hc : c = 'A'
  · subst hc
    have hnid : nuc.id = some tid := hrel.2 rfl
    have hnsym : nuc.symbol = 'A' := hrel.1
    obtain ⟨st, ln, hk, hcov1, hcov2⟩ := h.asym pos.toNat 'A' tid hsym rfl
    obtain ⟨h0, h1ln, h1⟩ := h.rng _ _ _ hk
    obtain ⟨j, r, hres, hjk, hrec, hstat, hid, hrpos, hrlen⟩ := h.active_lookup hk
    obtain ⟨gL, hinsL, hlenL, hgetL⟩ :=
      ListGenome.insert_te_spec_col s len hpos0 hposlt hsym hk h0 (by omega) h1
    obtain ⟨gK, hinsK, hlenK, hgetK⟩ :=
      LinkedListGenome.insert_te_spec_colK t len hpos0 hposltK hnuc hnsym hnid hres hrec
        (by rw [hrpos]; exact h0) (by rw [hrlen]; omega)
        (by rw [hrpos, hrlen, ← h.glen]; exact h1) hlen
    constructor
    · rw [hinsL]
      show (sliceInsert gL pos _).length = _
      rw [sliceInsert_length, List.length_replicate, hlenL]
    · rw [hinsK]
      show (gK.take pos.toNat ++ _ ++ gK.drop pos.toNat).length = _
      rw [splice_length, List.length_replicate, hlenK]
  · have hnsym : nuc.symbol ≠ 'A' := by
      rw [hrel.1]
      exact hc
    have hinsL := ListGenome.insert_te_spec_nocol s len hpos0 hposlt hsym hc
    have hinsK := LinkedListGenome.insert_te_spec_nocolK t len hpos0 hposltK hnuc hnsym hlen
    constructor
    · rw [hinsL]
      show (sliceInsert s.genome pos _).length = _
      rw [sliceInsert_length, List.length_replicate]
    · rw [hinsK]
      show (t.genome.take pos.toNat ++ _ ++ t.genome.drop pos.toNat).length = _
      rw [splice_length, List.length_replicate]

/-- A copy of an active record grows both genomes by exactly the
record's length. -/
theorem copy_size_sim {s : ListGenome} {t : LinkedListGenome} (h : SimInv s t)
    {te : Int} (off : Int) {st ln : Int}
    (hget : dget s.active_TEs te = some (st, ln)) :
    (s.copy_te te off).2.genome.length = s.genome.length + ln.toNat ∧
    (t.copy_te te off).2.genome.length = t.genome.length + ln.toNat := by
  obtain ⟨h0, hln, h1⟩ := h.rng te st ln hget
  have hglen : s.genome.length ≠ 0 := by omega
  have hglenK : t.genome.length ≠ 0 := by rw [← h.glen]; omega
  obtain ⟨j, r, hres, hjk, hrec, hstat, hid, hrpos, hrlen⟩ := h.active_lookup hget
  have hglenZ : (0 : Int) < (s.genome.length : Int) := by
    have : 0 < s.genome.length := Nat.pos_of_ne_zero hglen
    exact_mod_cast this
  have hpos0 : 0 ≤ (st + off) % (s.genome.length : Int) :=
    Int.emod_nonneg _ hglenZ.ne'
  have hposlt : (st + off) % (s.genome.length : Int) < (s.genome.length : Int) :=
    Int.emod_lt_of_pos _ hglenZ
  obtain ⟨e1, e2⟩ := insert_size_sim h hpos0 hposlt hln
  have hLeq : s.copy_te te off =
      s.insert_te ((st + off) % (s.genome.length : Int)) ln := by
    simp only [ListGenome.copy_te, hget, if_neg hglen]
  have hKeq : t.copy_te te off =
      ((t.insert_te ((st + off) % (s.genome.length : Int)) ln).1.map some,
       (t.insert_te ((st + off) % (s.genome.length : Int)) ln).2) := by
    simp only [LinkedListGenome.copy_te, hres, hrec, if_pos hstat, if_neg hglenK]
    rw [hrpos, hrlen, Int.add_comm off st, ← h.glen]
  constructor
  · rw [hLeq]
    exact e1
  · rw [hKeq]
    exact e2

/-- Validity-guarded runs with gain accounting: the final length is the
initial length plus the total gain, on both realizations. -/
theorem runGain_length {s : ListGenome} {t : LinkedListGenome} (h : SimInv s t)
    (ops : List Op) :
    (∀ (g : Nat) (s' : ListGenome), s.runGain ops = some (g, s') →
      s'.genome.length = s.genome.length + g) ∧
    (∀ (g : Nat) (t' : LinkedListGenome), t.runGain ops = some (g, t') →
      t'.genome.length = t.genome.length + g) := by
  induction ops generalizing s t with
  | nil =>
    constructor
    · intro g s' hg
      obtain ⟨e1, e2⟩ : (0 : Nat) = g ∧ s = s' := by
        refine ⟨by injection hg with h1; injection h1, ?_⟩
        injection hg with h1
        injection h1
      rw [← e1, ← e2]
      omega
    · intro g t' hg
      obtain ⟨e1, e2⟩ : (0 : Nat) = g ∧ t = t' := by
        refine ⟨by injection hg with h1; injection h1, ?_⟩
        injection hg with h1
        injection h1
      rw [← e1, ← e2]
      omega
  | cons op ops ih =>
    have main : ∀ gop : Nat,
        (s.step op).2.genome.length = s.genome.length + gop →
        (t.step op).2.genome.length = t.genome.length + gop →
        s.validOp op = true →
        (∀ (g : Nat) (s' : ListGenome),
          (Option.map (fun q : Nat × ListGenome => (gop + q.1, q.2))
            ((s.step op).2.runGain ops)) = some (g, s') →
          s'.genome.length = s.genome.length + g) ∧
        (∀ (g : Nat) (t' : LinkedListGenome),
          (Option.map (fun q : Nat × LinkedListGenome => (gop + q.1, q.2))
            ((t.step op).2.runGain ops)) = some (g, t') →
          t'.genome.length = t.genome.length + g) := by
      intro gop hszL hszK hv
      constructor
      · intro g s' hg
        obtain ⟨⟨g', s''⟩, hrun, hpair⟩ := Option.map_eq_some'.mp hg
        have e1 : gop + g' = g := by
          injection hpair with h1 h2
        have e2 : s'' = s' := by
          injection hpair with h1 h2
        have hinner := (ih (step_sim h op hv).2).1 g' s'' hrun
        rw [← e2, hinner, hszL]
        omega
      · intro g t' hg
        obtain ⟨⟨g', t''⟩, hrun, hpair⟩ := Option.map_eq_some'.mp hg
        have e1 : gop + g' = g := by
          injection hpair with h1 h2
        have e2 : t'' = t' := by
          injection hpair with h1 h2
        have hinner := (ih (step_sim h op hv).2).2 g' t'' hrun
        rw [← e2, hinner, hszK]
        omega
    cases op with
    | insert pos len =>
      constructor
      · intro g s' hg
        simp only [ListGenome.runGain] at hg
        by_cases hv : s.validOp (Op.insert pos len) = true
        · rw [if_pos hv] at hg
          have hv' : (0 ≤ pos ∧ pos < (s.genome.length : Int)) ∧ 1 ≤ len := by
            simpa [ListGenome.validOp, Bool.and_eq_true, decide_eq_true_eq] using hv
          obtain ⟨hszL, hszK⟩ := insert_size_sim h hv'.1.1 hv'.1.2 hv'.2
          exact (main len.toNat hszL hszK hv).1 g s' hg
        · rw [if_neg hv] at hg
          exact absurd hg (by simp)
      · intro g t' hg
        simp only [LinkedListGenome.runGain] at hg
        by_cases hv : t.validOp (Op.insert pos len) = true
        · rw [if_pos hv] at hg
          have hvL : s.validOp (Op.insert pos len) = true := by
            rw [validOp_eq h]
            exact hv
          have hv' : (0 ≤ pos ∧ pos < (s.genome.length : Int)) ∧ 1 ≤ len := by
            simpa [ListGenome.validOp, Bool.and_eq_true, decide_eq_true_eq] using hvL
          obtain ⟨hszL, hszK⟩ := insert_size_sim h hv'.1.1 hv'.1.2 hv'.2
          exact (main len.toNat hszL hszK hvL).2 g t' hg
        · rw [if_neg hv] at hg
          exact absurd hg (by simp)
    | copy te off =>
      constructor
      · intro g s' hg
        simp only [ListGenome.runGain] at hg
        by_cases hv : s.validOp (Op.copy te off) = true
        · rw [if_pos hv] at hg
          have hv' : te ∈ s.active_TEs.map (fun e => e.1) := by
            have : te ∈ s.active_tes := by simpa [ListGenome.validOp] using hv
            exact this
          obtain ⟨⟨st, ln⟩, hget⟩ := dget_isSome_of_mem_keys hv'
          obtain ⟨hszL, hszK⟩ := copy_size_sim h off hget
          rw [hget] at hg
          exact (main ln.toNat hszL hszK hv).1 g s' hg
        · rw [if_neg hv] at hg
          exact absurd hg (by simp)
      · intro g t' hg
        simp only [LinkedListGenome.runGain] at hg
        by_cases hv : t.validOp (Op.copy te off) = true
        · rw [if_pos hv] at hg
          have hvL : s.validOp (Op.copy te off) = true := by
            rw [validOp_eq h]
            exact hv
          have hv' : te ∈ s.active_TEs.map (fun e => e.1) := by
            have : te ∈ s.active_tes := by simpa [ListGenome.validOp] using hvL
            exact this
          obtain ⟨⟨st, ln⟩, hget⟩ := dget_isSome_of_mem_keys hv'
          obtain ⟨j, r, hres, hjk, hrec, hstat, hid, hrpos, hrlen⟩ :=
            h.active_lookup hget
          obtain ⟨hszL, hszK⟩ := copy_size_sim h off hget
          rw [hres] at hg
          simp only [Option.some_bind, hrec, Option.map_some', Option.getD_some] at hg
          rw [hrlen] at hg
          exact (main ln.toNat hszL hszK hvL).2 g t' hg
        · rw [if_neg hv] at hg
          exact absurd hg (by simp)
    | disable te =>
      constructor
      · intro g s' hg
        simp only [ListGenome.runGain] at hg
        by_cases hv : s.validOp (Op.disable te) = true
        · rw [if_pos hv] at hg
          have hszL : (s.step (Op.disable te)).2.genome.length =
              s.genome.length + 0 := by
            show (s.disable_te te).2.genome.length = _
            simp [ListGenome.disable_len]
          have hszK : (t.step (Op.disable te)).2.genome.length =
              t.genome.length + 0 := by
            show (t.disable_te te).2.genome.length = _
            simp [LinkedListGenome.disable_lenK]
          exact (main 0 hszL hszK hv).1 g s' hg
        · rw [if_neg hv] at hg
          exact absurd hg (by simp)
      · intro g t' hg
        simp only [LinkedListGenome.runGain] at hg
        by_cases hv : t.validOp (Op.disable te) = true
        · rw [if_pos hv] at hg
          have hvL : s.validOp (Op.disable te) = true := by
            rw [validOp_eq h]
            exact hv
          have hszL : (s.step (Op.disable te)).2.genome.length =
              s.genome.length + 0 := by
            show (s.disable_te te).2.genome.length = _
            simp [ListGenome.disable_len]
          have hszK : (t.step (Op.disable te)).2.genome.length =
              t.genome.length + 0 := by
            show (t.disable_te te).2.genome.length = _
            simp [LinkedListGenome.disable_lenK]
          exact (main 0 hszL hszK hvL).2 g t' hg
        · rw [if_neg hv] at hg
          exact absurd hg (by simp)

/-- C7: from a fresh genome of size `n`, after any valid trace the final
`length()` on either realization equals `n` plus the accumulated gain of
the trace — each insertion contributing its length and each (necessarily
successful) copy the copied record's length — and, separately, a single
step of any operation, valid or not, never shrinks either genome. -/
theorem c7_length_invariant (n : Nat) (ops : List Op) :
    (∀ (g : Nat) (s' : ListGenome),
      (ListGenome.init n).runGain ops = some (g, s') → s'.size = n + g) ∧
    (∀ (g : Nat) (t' : LinkedListGenome),
      (LinkedListGenome.init n).runGain ops = some (g, t') → t'.size = n + g) ∧
    (∀ (s : ListGenome) (t : LinkedListGenome) (op : Op),
      s.size ≤ ((s.step op).2).size ∧ t.size ≤ ((t.step op).2).size) := by
  refine ⟨?_, ?_, fun s t op => step_mono s t op⟩
  · intro g s' hg
    have hgl := (runGain_length (simInv_init n) ops).1 g s' hg
    simpa [ListGenome.size, ListGenome.init] using hgl
  · intro g t' hg
    have hgl := (runGain_length (simInv_init n) ops).2 g t' hg
    simpa [LinkedListGenome.size, LinkedListGenome.init] using hgl

/-- Witness for C7 at `n = 4` with the trace
`insert(1,2); copy(1,3); disable(1)`: the accumulated gain is `2 + 2 + 0 = 4`
and both realizations end with `length() = 8`. -/
theorem c7_length_invariant_witness :
    ({ genome := [('-', 0), ('x', 1), ('x', 1), ('-', 0), ('A', 2), ('A', 2),
                  ('-', 0), ('-', 0)],
       active_TEs := [(2, 4, 2)], inactive_TEs := [(1, 1, 2)],
       number_of_TEs := 2 } : ListGenome).size = 4 + 4 ∧
    ({ genome := [⟨'-', none⟩, ⟨'x', some 1⟩, ⟨'x', some 1⟩, ⟨'-', none⟩,
                  ⟨'A', some 2⟩, ⟨'A', some 2⟩, ⟨'-', none⟩, ⟨'-', none⟩],
       tes := [⟨1, 1, 2, .inactive⟩, ⟨2, 4, 2, .active⟩] } :
        LinkedListGenome).size = 4 + 4 :=
  ⟨(c7_length_invariant 4 [Op.insert 1 2, Op.copy 1 3, Op.disable 1]).1 4 _
      (by decide),
   (c7_length_invariant 4 [Op.insert 1 2, Op.copy 1 3, Op.disable 1]).2.1 4 _
      (by decide)⟩

/-- The start-shift pass of a valid `insert_te`, on both realizations:
every record of the linked realization (Active and Inactive alike) has
its `pos` shifted by `len` exactly when `pos > pos₀`, keeping id and
length; on the list realization the same rule governs the `active_TEs`
entries of every non-collided id, while an `inactive_TEs` entry of an id
that is not an active key is left entirely unchanged. -/
theorem insert_shift_sim {s : ListGenome} {t : LinkedListGenome} (h : SimInv s t)
    {pos len : Int} (hpos0 : 0 ≤ pos) (hposlt : pos < (s.genome.length : Int))
    (hlen : 1 ≤ len) :
    (∀ (j : Nat) (r : TErec), t.tes[j]? = some r →
      ∃ r' : TErec, (t.insert_te pos len).2.tes[j]? = some r' ∧
        r'.id = r.id ∧ r'.length = r.length ∧
        r'.pos = if r.pos > pos then r.pos + len else r.pos) ∧
    (∀ (k st ln : Int), dget s.active_TEs k = some (st, ln) →
      s.genome[pos.toNat]? ≠ some ('A', k) →
      dget (s.insert_te pos len).2.active_TEs k =
        some (if st > pos then st + len else st, ln)) ∧
    (∀ (k st ln : Int), dget s.active_TEs k = none →
      dget s.inactive_TEs k = some (st, ln) →
      dget (s.insert_te pos len).2.inactive_TEs k = some (st, ln)) := by
  have hplt : pos.toNat < s.genome.length := by omega
  obtain ⟨⟨c, tid⟩, hsym⟩ : ∃ e, s.genome[pos.toNat]? = some e :=
    ⟨s.genome[pos.toNat], List.getElem?_eq_some.mpr ⟨hplt, rfl⟩⟩
  have hpltK : pos.toNat < t.genome.length := by rw [← h.glen]; exact hplt
  obtain ⟨nuc, hnuc⟩ : ∃ nu, t.genome[pos.toNat]? = some nu :=
    ⟨t.genome[pos.toNat], List.getElem?_eq_some.mpr ⟨hpltK, rfl⟩⟩
  have hrel : nucRel (c, tid) nuc :=
    (forall₂_get?_iff.mp h.gen).2 pos.toNat (c, tid) nuc hsym hnuc
  have hkne_cnt : ∀ k : Int, k ∈ s.active_TEs.map (fun e => e.1) →
      k ≠ s.number_of_TEs + 1 := by
    intro k hk
    have := h.key_bound hk
    rw [h.cnt]
    omega
  by_cases hA : c = 'A'
  · subst hA
    have hnucA : nuc.symbol = 'A' := hrel.1
    have hnucid : nuc.id = some tid := hrel.2 rfl
    obtain ⟨st', ln', hk', hst'le, hlt'⟩ :=
      h.asym pos.toNat 'A' tid hsym rfl
    obtain ⟨hb0, hb1, hb2⟩ := h.rng tid st' ln' hk'
    obtain ⟨j', r', hres, hj'k, hrec, hstat, hid, hrpos, hrlen⟩ :=
      h.active_lookup hk'
    obtain ⟨g2, hLspec, hg2len, hg2get⟩ :=
      ListGenome.insert_te_spec_col s len hpos0 hposlt hsym hk' hb0 (by omega) hb2
    obtain ⟨g2K, hKspec, hg2Klen, hg2Kget⟩ :=
      LinkedListGenome.insert_te_spec_colK t len
        hpos0 (by rw [← h.glen]; exact hposlt) hnuc hnucA hnucid hres hrec
        (by omega) (by omega) (by rw [← h.glen]; omega) hlen
    refine ⟨?_, ?_, ?_⟩
    · intro j r hr
      have hjlt : j < t.tes.length := (List.getElem?_eq_some.mp hr).1
      rw [hKspec]
      simp only
      rw [List.getElem?_map, List.getElem?_append_left
        (by rw [List.length_set]; exact hjlt)]
      by_cases hjj : j = j'
      · subst hjj
        have hrr : r = r' := by
          rw [hr] at hrec
          injection hrec
        rw [List.getElem?_set, if_pos rfl, if_pos hjlt, Option.map_some']
        subst hrr
        by_cases hgt : r.pos > pos
        · exact ⟨_, rfl, by simp [if_pos hgt]⟩
        · exact ⟨_, rfl, by simp [if_neg hgt]⟩
      · rw [List.getElem?_set_ne (fun hh => hjj hh.symm), hr, Option.map_some']
        by_cases hgt : r.pos > pos
        · exact ⟨_, rfl, by simp [if_pos hgt]⟩
        · exact ⟨_, rfl, by simp [if_neg hgt]⟩
    · intro k st ln hk hne
      have hknetid : k ≠ tid := by
        intro hh
        exact hne (by rw [hh]; exact hsym)
      have hkcnt : k ≠ s.number_of_TEs + 1 :=
        hkne_cnt k (List.mem_map.mpr ⟨(k, st, ln), dget_mem hk, rfl⟩)
      rw [hLspec]
      simp only
      rw [dget_mapShift, dget_dset_ne _ _ hkcnt, dget_dpop_ne hknetid, hk,
        Option.map_some']
      by_cases hgt : st > pos
      · simp [if_pos hgt]
      · simp [if_neg hgt]
    · intro k st ln hka hki
      have hknetid : k ≠ tid := by
        intro hh
        rw [hh, hk'] at hka
        exact absurd hka (by simp)
      rw [hLspec]
      simp only
      rw [dget_dset_ne _ _ hknetid, hki]
  · have hnucne : nuc.symbol ≠ 'A' := by
      rw [hrel.1]
      exact hA
    have hLspec := ListGenome.insert_te_spec_nocol s len hpos0 hposlt hsym hA
    have hKspec := LinkedListGenome.insert_te_spec_nocolK t len
      hpos0 (by rw [← h.glen]; exact hposlt) hnuc hnucne hlen
    refine ⟨?_, ?_, ?_⟩
    · intro j r hr
      have hjlt : j < t.tes.length := (List.getElem?_eq_some.mp hr).1
      rw [hKspec]
      simp only
      rw [List.getElem?_map, List.getElem?_append_left hjlt, hr, Option.map_some']
      by_cases hgt : r.pos > pos
      · exact ⟨_, rfl, by simp [if_pos hgt]⟩
      · exact ⟨_, rfl, by simp [if_neg hgt]⟩
    · intro k st ln hk hne
      have hkcnt : k ≠ s.number_of_TEs + 1 :=
        hkne_cnt k (List.mem_map.mpr ⟨(k, st, ln), dget_mem hk, rfl⟩)
      rw [hLspec]
      simp only
      rw [dget_mapShift, dget_dset_ne _ _ hkcnt, hk, Option.map_some']
      by_cases hgt : st > pos
      · simp [if_pos hgt]
      · simp [if_neg hgt]
    · intro k st ln hka hki
      rw [hLspec]
      simp only
      exact hki

/-- C9, amended: in every state reached by a valid trace, a valid
`insert_te(pos, len)` applies the shift rule — add `len` to every start
strictly greater than `pos`, leave every other start (including one equal
to `pos`) unchanged — to *every* TE record of `LinkedListGenome`, Active
and Inactive alike, but on `ListGenome` only to the `active_TEs` entries
of non-collided ids: an `inactive_TEs` entry is never shifted, whatever
its start (the counterexample shows the original claim fails there). -/
theorem c9_shift_rule (n : Nat) (ops : List Op)
    {qL : List (Except PyErr (Option Int)) × ListGenome}
    {qK : List (Except PyErr (Option Int)) × LinkedListGenome}
    (hL : (ListGenome.init n).runValid ops = some qL)
    (hK : (LinkedListGenome.init n).runValid ops = some qK)
    (pos len : Int) (hpos0 : 0 ≤ pos) (hposlt : pos < ((qL.2.size : Nat) : Int))
    (hlen : 1 ≤ len) :
    (∀ (j : Nat) (r : TErec), qK.2.tes[j]? = some r →
      ∃ r' : TErec, (qK.2.insert_te pos len).2.tes[j]? = some r' ∧
        r'.id = r.id ∧ r'.length = r.length ∧
        r'.pos = if r.pos > pos then r.pos + len else r.pos) ∧
    (∀ (k st ln : Int), dget qL.2.active_TEs k = some (st, ln) →
      qL.2.genome[pos.toNat]? ≠ some ('A', k) →
      dget (qL.2.insert_te pos len).2.active_TEs k =
        some (if st > pos then st + len else st, ln)) ∧
    (∀ (k st ln : Int), dget qL.2.active_TEs k = none →
      dget qL.2.inactive_TEs k = some (st, ln) →
      dget (qL.2.insert_te pos len).2.inactive_TEs k = some (st, ln)) :=
  insert_shift_sim (simInv_of_runValid n ops hL hK) hpos0 hposlt hlen



/-- Witness for C9 at `n = 10`, trace `insert(2,3); insert(3,2)` (which
leaves TE 1 Inactive at start 2 and TE 2 Active at start 3), followed by
`insert_te(0, 5)`: the Inactive linked record shifts from start 2 to 7,
the Active list entry shifts from start 3 to 8, and the Inactive list
entry keeps start 2. -/
theorem c9_shift_rule_witness :
    (∃ r' : TErec,
      ((⟨c9GK, [⟨1, 2, 3, .inactive⟩, ⟨2, 3, 2, .active⟩]⟩ :
          LinkedListGenome).insert_te 0 5).2.tes[0]? = some r' ∧
        r'.id = (⟨1, 2, 3, .inactive⟩ : TErec).id ∧
        r'.length = (⟨1, 2, 3, .inactive⟩ : TErec).length ∧
        r'.pos = if (⟨1, 2, 3, .inactive⟩ : TErec).pos > 0 then
            (⟨1, 2, 3, .inactive⟩ : TErec).pos + 5
          else (⟨1, 2, 3, .inactive⟩ : TErec).pos) ∧
    dget ((⟨c9GL, [(2, 3, 2)], [(1, 2, 3)], 2⟩ :
        ListGenome).insert_te 0 5).2.active_TEs 2 =
      some (if (3 : Int) > 0 then 3 + 5 else 3, 2) ∧
    dget ((⟨c9GL, [(2, 3, 2)], [(1, 2, 3)], 2⟩ :
        ListGenome).insert_te 0 5).2.inactive_TEs 1 = some (2, 3) :=
  have h := @c9_shift_rule 10 [Op.insert 2 3, Op.insert 3 2]
    ([Except.ok (some 1), Except.ok (some 2)],
      (⟨c9GL, [(2, 3, 2)], [(1, 2, 3)], 2⟩ : ListGenome))
    ([Except.ok (some 1), Except.ok (some 2)],
      (⟨c9GK, [⟨1, 2, 3, .inactive⟩, ⟨2, 3, 2, .active⟩]⟩ : LinkedListGenome))
    (by decide) (by decide) 0 5 (by decide) (by decide) (by decide)
  ⟨h.1 0 ⟨1, 2, 3, .inactive⟩ (by decide),
   h.2.1 2 3 2 (by decide) (by decide),
   h.2.2 1 2 3 (by decide) (by decide)⟩

/-- A valid `insert_te` whose target position holds an Active symbol of
TE `k`, under the invariant: both realizations succeed with the fresh id,
TE `k` is disabled (record moved/flagged, every one of its Active symbols
flipped to `'x'`), the new TE is the sole Active occupant of
`[pos, pos+len)`, and every position from `pos` onward shifts right by
`len` while earlier positions stay in place (`k`'s old cells showing the
flip). -/
theorem insert_collision_sim {s : ListGenome} {t : LinkedListGenome} (h : SimInv s t)
    {pos len k : Int} (hpos0 : 0 ≤ pos) (hposlt : pos < (s.genome.length : Int))
    (hlen : 1 ≤ len)
    (hsym : s.genome[pos.toNat]? = some ('A', k)) :
    ∃ st ln : Int,
      dget s.active_TEs k = some (st, ln) ∧
      (s.insert_te pos len).1 = .ok (s.number_of_TEs + 1) ∧
      (t.insert_te pos len).1 = .ok ((t.tes.length : Int) + 1) ∧
      dget (s.insert_te pos len).2.active_TEs k = none ∧
      dget (s.insert_te pos len).2.inactive_TEs k = some (st, ln) ∧
      (∃ r : TErec, (t.insert_te pos len).2.tes[(k - 1).toNat]? = some r ∧
        r.id = k ∧ r.length = ln ∧ r.status = .inactive) ∧
      (∀ p : Nat, (s.insert_te pos len).2.genome[p]? ≠ some ('A', k)) ∧
      (∀ (p : Nat) (nu : Nucleotide),
        (t.insert_te pos len).2.genome[p]? = some nu → nu.id = some k →
        nu.symbol ≠ 'A') ∧
      (∀ p : Nat, pos ≤ (p : Int) → (p : Int) < pos + len →
        (s.insert_te pos len).2.genome[p]? = some ('A', s.number_of_TEs + 1) ∧
        (t.insert_te pos len).2.genome[p]? =
          some ⟨'A', some ((t.tes.length : Int) + 1)⟩) ∧
      (∀ p : Nat, (s.insert_te pos len).2.genome[p]? =
          some ('A', s.number_of_TEs + 1) →
        pos ≤ (p : Int) ∧ (p : Int) < pos + len) ∧
      (∀ p : Nat, (p : Int) < pos →
        (s.insert_te pos len).2.genome[p]? =
          (if st ≤ (p : Int) ∧ (p : Int) < st + ln then some ('x', k)
           else s.genome[p]?) ∧
        (t.insert_te pos len).2.genome[p]? =
          (if st ≤ (p : Int) ∧ (p : Int) < st + ln then some ⟨'x', some k⟩
           else t.genome[p]?)) ∧
      (∀ p : Nat, pos ≤ (p : Int) →
        (s.insert_te pos len).2.genome[p + len.toNat]? =
          (if st ≤ (p : Int) ∧ (p : Int) < st + ln then some ('x', k)
           else s.genome[p]?) ∧
        (t.insert_te pos len).2.genome[p + len.toNat]? =
          (if st ≤ (p : Int) ∧ (p : Int) < st + ln then some ⟨'x', some k⟩
           else t.genome[p]?)) := by
  have hplt : pos.toNat < s.genome.length := by omega
  have hpltK : pos.toNat < t.genome.length := by rw [← h.glen]; exact hplt
  obtain ⟨nuc, hnuc⟩ : ∃ nu, t.genome[pos.toNat]? = some nu :=
    ⟨t.genome[pos.toNat], List.getElem?_eq_some.mpr ⟨hpltK, rfl⟩⟩
  have hrel : nucRel ('A', k) nuc :=
    (forall₂_get?_iff.mp h.gen).2 pos.toNat ('A', k) nuc hsym hnuc
  have hnucA : nuc.symbol = 'A' := hrel.1
  have hnucid : nuc.id = some k := hrel.2 rfl
  obtain ⟨st, ln, hk', hst'le, hlt'⟩ := h.asym pos.toNat 'A' k hsym rfl
  obtain ⟨hb0, hb1, hb2⟩ := h.rng k st ln hk'
  have hkb := h.key_bound (List.mem_map.mpr ⟨(k, st, ln), dget_mem hk', rfl⟩)
  obtain ⟨j', r', hres, hj'k, hrec, hstat, hid, hrpos, hrlen⟩ :=
    h.active_lookup hk'
  obtain ⟨g2, hLspec, hg2len, hg2get⟩ :=
    ListGenome.insert_te_spec_col s len hpos0 hposlt hsym hk' hb0 (by omega) hb2
  obtain ⟨g2K, hKspec, hg2Klen, hg2Kget⟩ :=
    LinkedListGenome.insert_te_spec_colK t len
      hpos0 (by rw [← h.glen]; exact hposlt) hnuc hnucA hnucid hres hrec
      (by omega) (by omega) (by rw [← h.glen]; omega) hlen
  have hg2KgetStLn : ∀ p : Nat, g2K[p]? =
      if st ≤ (p : Int) ∧ (p : Int) < st + ln then some ⟨'x', some k⟩
      else t.genome[p]? := by
    intro p
    rw [hg2Kget p, hrpos, hrlen]
  have hfinL : ∀ p : Nat, (s.insert_te pos len).2.genome[p]? =
      if p < pos.toNat then g2[p]?
      else if p < pos.toNat + len.toNat then
        some ('A', s.number_of_TEs + 1)
      else g2[p - len.toNat]? := by
    intro p
    rw [hLspec]
    show (sliceInsert g2 pos _)[p]? = _
    rw [sliceInsert_eq _ hpos0 (by omega),
      splice_getElem? g2 pos.toNat _ (by omega) p, List.length_replicate]
    split_ifs with h1 h2
    · rfl
    · rw [List.getElem?_replicate, if_pos (by omega)]
    · rfl
  have hfinK : ∀ p : Nat, (t.insert_te pos len).2.genome[p]? =
      if p < pos.toNat then g2K[p]?
      else if p < pos.toNat + len.toNat then
        some ⟨'A', some ((t.tes.length : Int) + 1)⟩
      else g2K[p - len.toNat]? := by
    intro p
    rw [hKspec]
    show (g2K.take pos.toNat ++ _ ++ g2K.drop pos.toNat)[p]? = _
    rw [splice_getElem? g2K pos.toNat _ (by rw [hg2Klen, ← h.glen]; omega) p,
      List.length_replicate]
    split_ifs with h1 h2
    · rfl
    · rw [List.getElem?_replicate, if_pos (by omega)]
    · rfl
  have hAfresh : ∀ p : Nat, s.genome[p]? ≠ some ('A', s.number_of_TEs + 1) := by
    intro p hp
    obtain ⟨st0, ln0, hd, _, _⟩ := h.asym p 'A' (s.number_of_TEs + 1) hp rfl
    have := h.key_bound
      (List.mem_map.mpr ⟨(s.number_of_TEs + 1, st0, ln0), dget_mem hd, rfl⟩)
    rw [← h.cnt] at this
    omega
  have hArange : ∀ p : Nat, s.genome[p]? = some ('A', k) →
      st ≤ (p : Int) ∧ (p : Int) < st + ln := by
    intro p hp
    obtain ⟨st0, ln0, hd, hle, hlt⟩ := h.asym p 'A' k hp rfl
    rw [hk'] at hd
    obtain ⟨e1, e2⟩ : st = st0 ∧ ln = ln0 :=
      ⟨congrArg Prod.fst (Option.some.inj hd), congrArg Prod.snd (Option.some.inj hd)⟩
    omega
  have hKcell : ∀ (p : Nat) (nu : Nucleotide), t.genome[p]? = some nu →
      nu.symbol = 'A' → ∃ kk : Int, s.genome[p]? = some ('A', kk) ∧
        nu.id = some kk := by
    intro p nu hp hA
    have hlt : p < t.genome.length := (List.getElem?_eq_some.mp hp).1
    have hltL : p < s.genome.length := by rw [h.glen]; exact hlt
    obtain ⟨⟨c, tid⟩, hcell⟩ : ∃ e, s.genome[p]? = some e :=
      ⟨s.genome[p], List.getElem?_eq_some.mpr ⟨hltL, rfl⟩⟩
    have hr := (forall₂_get?_iff.mp h.gen).2 p (c, tid) nu hcell hp
    have hcA : c = 'A' := hr.1.symm.trans hA
    subst hcA
    exact ⟨tid, hcell, hr.2 rfl⟩
  have hg2A : ∀ p : Nat, g2[p]? ≠ some ('A', s.number_of_TEs + 1) := by
    intro p hp
    rw [hg2get p] at hp
    by_cases hin : st ≤ (p : Int) ∧ (p : Int) < st + ln
    · rw [if_pos hin] at hp
      have hh : ('x', k) = ('A', s.number_of_TEs + 1) := by injection hp
      have hx : ('x' : Char) = 'A' := congrArg Prod.fst hh
      exact absurd hx (by decide)
    · rw [if_neg hin] at hp
      exact hAfresh p hp
  have hg2k : ∀ p : Nat, g2[p]? ≠ some ('A', k) := by
    intro p hp
    rw [hg2get p] at hp
    by_cases hin : st ≤ (p : Int) ∧ (p : Int) < st + ln
    · rw [if_pos hin] at hp
      have hh : ('x', k) = ('A', k) := by injection hp
      have hx : ('x' : Char) = 'A' := congrArg Prod.fst hh
      exact absurd hx (by decide)
    · rw [if_neg hin] at hp
      exact hin (hArange p hp)
  have hkcnt : k ≠ s.number_of_TEs + 1 := by
    rw [h.cnt]
    omega
  refine ⟨st, ln, hk', ?_, ?_, ?_, ?_, ?_, ?_, ?_, ?_, ?_, ?_, ?_⟩
  · rw [hLspec]
  · rw [hKspec]
  · rw [hLspec]
    show dget (List.map _ (dset (dpop s.active_TEs k) _ _)) k = none
    rw [dget_mapShift, dget_dset_ne _ _ hkcnt, dget_dpop_self h.keysNodup]
    rfl
  · rw [hLspec]
    show dget (dset s.inactive_TEs k (st, ln)) k = some (st, ln)
    rw [dget_dset_self]
  · rw [hKspec]
    show ∃ r : TErec, (List.map _ ((t.tes.set j' _) ++ _))[(k - 1).toNat]? =
      some r ∧ _
    have hjlt : j' < t.tes.length := (List.getElem?_eq_some.mp hrec).1
    have hj'eq : (k - 1).toNat = j' := by omega
    rw [hj'eq, List.getElem?_map, List.getElem?_append_left
      (by rw [List.length_set]; exact hjlt),
      List.getElem?_set, if_pos rfl, if_pos hjlt, Option.map_some']
    by_cases hgt : r'.pos > pos
    · refine ⟨_, rfl, ?_⟩
      simp only [if_pos hgt]
      exact ⟨hid, hrlen, trivial⟩
    · refine ⟨_, rfl, ?_⟩
      simp only [if_neg hgt]
      exact ⟨hid, hrlen, trivial⟩
  · intro p hp
    rw [hfinL p] at hp
    split_ifs at hp with h1 h2
    · exact hg2k p hp
    · have : ('A', s.number_of_TEs + 1) = ('A', k) := by injection hp
      exact hkcnt (congrArg Prod.snd this).symm
    · exact hg2k _ hp
  · intro p nu hp hpid hpA
    rw [hfinK p] at hp
    have hkltK : k ≠ (t.tes.length : Int) + 1 := by omega
    split_ifs at hp with h1 h2
    · rw [hg2KgetStLn p] at hp
      by_cases hin : st ≤ (p : Int) ∧ (p : Int) < st + ln
      · rw [if_pos hin] at hp
        have : nuc.symbol = 'A' := hnucA
        have hnu : nu = ⟨'x', some k⟩ := by
          injection hp with hh
          exact hh.symm
        have hx : ('x' : Char) = 'A' := by rw [hnu] at hpA; exact hpA
        exact absurd hx (by decide)
      · rw [if_neg hin] at hp
        obtain ⟨kk, hcell, hkid⟩ := hKcell p nu hp hpA
        have : kk = k := by
          rw [hpid] at hkid
          injection hkid with hh
          exact hh.symm
        rw [this] at hcell
        exact hin (hArange p hcell)
    · have hnu : nu = ⟨'A', some ((t.tes.length : Int) + 1)⟩ := by
        injection hp with hh
        exact hh.symm
      rw [hnu] at hpid
      have : some ((t.tes.length : Int) + 1) = some k := hpid
      injection this with hh
      exact hkltK hh.symm
    · rw [hg2KgetStLn _] at hp
      by_cases hin : st ≤ ((p - len.toNat : Nat) : Int) ∧
          ((p - len.toNat : Nat) : Int) < st + ln
      · rw [if_pos hin] at hp
        have hnu : nu = ⟨'x', some k⟩ := by
          injection hp with hh
          exact hh.symm
        have hx : ('x' : Char) = 'A' := by rw [hnu] at hpA; exact hpA
        exact absurd hx (by decide)
      · rw [if_neg hin] at hp
        obtain ⟨kk, hcell, hkid⟩ := hKcell _ nu hp hpA
        have : kk = k := by
          rw [hpid] at hkid
          injection hkid with hh
          exact hh.symm
        rw [this] at hcell
        exact hin (hArange _ hcell)
  · intro p hp1 hp2
    have hlenpos : 1 ≤ len.toNat := by omega
    constructor
    · rw [hfinL p, if_neg (by omega), if_pos (by omega)]
    · rw [hfinK p, if_neg (by omega), if_pos (by omega)]
  · intro p hp
    rw [hfinL p] at hp
    split_ifs at hp with h1 h2
    · exact absurd hp (hg2A p)
    · omega
    · exact absurd hp (hg2A _)
  · intro p hp
    constructor
    · rw [hfinL p, if_pos (by omega), hg2get p]
    · rw [hfinK p, if_pos (by omega), hg2KgetStLn p]
  · intro p hp
    have hlenpos : 1 ≤ len.toNat := by omega
    constructor
    · rw [hfinL (p + len.toNat), if_neg (by omega), if_neg (by omega)]
      have : p + len.toNat - len.toNat = p := by omega
      rw [this, hg2get p]
    · rw [hfinK (p + len.toNat), if_neg (by omega), if_neg (by omega)]
      have : p + len.toNat - len.toNat = p := by omega
      rw [this, hg2KgetStLn p]

/-- C4: in every state reached by a valid trace, a valid
`insert_te(pos, len)` whose target position holds an Active symbol of TE
`k` makes both realizations succeed with the fresh id, disables the
entire TE `k` (its record is moved to `inactive_TEs` / flagged Inactive
and no Active symbol of `k` survives anywhere), makes the new TE the sole
Active occupant of `[pos, pos+len)`, and shifts every position from `pos`
onward right by `len` while keeping earlier positions in place (`k`'s old
cells showing the Active→Inactive flip). -/
theorem c4_collision_disables (n : Nat) (ops : List Op)
    {qL : List (Except PyErr (Option Int)) × ListGenome}
    {qK : List (Except PyErr (Option Int)) × LinkedListGenome}
    (hL : (ListGenome.init n).runValid ops = some qL)
    (hK : (LinkedListGenome.init n).runValid ops = some qK)
    (pos len k : Int) (hpos0 : 0 ≤ pos)
    (hposlt : pos < ((qL.2.size : Nat) : Int)) (hlen : 1 ≤ len)
    (hsym : qL.2.genome[pos.toNat]? = some ('A', k)) :
    ∃ st ln : Int,
      dget qL.2.active_TEs k = some (st, ln) ∧
      (qL.2.insert_te pos len).1 = .ok (qL.2.number_of_TEs + 1) ∧
      (qK.2.insert_te pos len).1 = .ok ((qK.2.tes.length : Int) + 1) ∧
      dget (qL.2.insert_te pos len).2.active_TEs k = none ∧
      dget (qL.2.insert_te pos len).2.inactive_TEs k = some (st, ln) ∧
      (∃ r : TErec, (qK.2.insert_te pos len).2.tes[(k - 1).toNat]? = some r ∧
        r.id = k ∧ r.length = ln ∧ r.status = .inactive) ∧
      (∀ p : Nat, (qL.2.insert_te pos len).2.genome[p]? ≠ some ('A', k)) ∧
      (∀ (p : Nat) (nu : Nucleotide),
        (qK.2.insert_te pos len).2.genome[p]? = some nu → nu.id = some k →
        nu.symbol ≠ 'A') ∧
      (∀ p : Nat, pos ≤ (p : Int) → (p : Int) < pos + len →
        (qL.2.insert_te pos len).2.genome[p]? =
          some ('A', qL.2.number_of_TEs + 1) ∧
        (qK.2.insert_te pos len).2.genome[p]? =
          some ⟨'A', some ((qK.2.tes.length : Int) + 1)⟩) ∧
      (∀ p : Nat, (qL.2.insert_te pos len).2.genome[p]? =
          some ('A', qL.2.number_of_TEs + 1) →
        pos ≤ (p : Int) ∧ (p : Int) < pos + len) ∧
      (∀ p : Nat, (p : Int) < pos →
        (qL.2.insert_te pos len).2.genome[p]? =
          (if st ≤ (p : Int) ∧ (p : Int) < st + ln then some ('x', k)
           else qL.2.genome[p]?) ∧
        (qK.2.insert_te pos len).2.genome[p]? =
          (if st ≤ (p : Int) ∧ (p : Int) < st + ln then some ⟨'x', some k⟩
           else qK.2.genome[p]?)) ∧
      (∀ p : Nat, pos ≤ (p : Int) →
        (qL.2.insert_te pos len).2.genome[p + len.toNat]? =
          (if st ≤ (p : Int) ∧ (p : Int) < st + ln then some ('x', k)
           else qL.2.genome[p]?) ∧
        (qK.2.insert_te pos len).2.genome[p + len.toNat]? =
          (if st ≤ (p : Int) ∧ (p : Int) < st + ln then some ⟨'x', some k⟩
           else qK.2.genome[p]?)) :=
  insert_collision_sim (simInv_of_runValid n ops hL hK) hpos0 hposlt hlen hsym

/-- Witness for C4 at `n = 10`, trace `insert(2,3)` (TE 1 Active on
`[2,5)`), followed by `insert_te(3, 2)` into TE 1's interior: both calls
return the fresh id 2, TE 1 leaves the active dict / its record flips to
Inactive, no `('A', 1)` cell survives, and position 3 of the new genome
belongs to the new TE 2. -/
theorem c4_collision_disables_witness :
    ((⟨c4GL, [(1, 2, 3)], [], 1⟩ : ListGenome).insert_te 3 2).1 = .ok 2 ∧
    ((⟨c4GK, [⟨1, 2, 3, .active⟩]⟩ : LinkedListGenome).insert_te 3 2).1 =
      .ok 2 ∧
    dget ((⟨c4GL, [(1, 2, 3)], [], 1⟩ :
      ListGenome).insert_te 3 2).2.active_TEs 1 = none ∧
    (∀ p : Nat, ((⟨c4GL, [(1, 2, 3)], [], 1⟩ :
      ListGenome).insert_te 3 2).2.genome[p]? ≠ some ('A', 1)) ∧
    ((⟨c4GL, [(1, 2, 3)], [], 1⟩ : ListGenome).insert_te 3 2).2.genome[3]? =
      some ('A', 2) ∧
    (∃ r : TErec, ((⟨c4GK, [⟨1, 2, 3, .active⟩]⟩ :
        LinkedListGenome).insert_te 3 2).2.tes[0]? = some r ∧
      r.id = 1 ∧ r.status = .inactive) := by
  have h := @c4_collision_disables 10 [Op.insert 2 3]
    ([Except.ok (some 1)], (⟨c4GL, [(1, 2, 3)], [], 1⟩ : ListGenome))
    ([Except.ok (some 1)], (⟨c4GK, [⟨1, 2, 3, .active⟩]⟩ : LinkedListGenome))
    (by decide) (by decide) 3 2 1 (by decide) (by decide) (by decide)
    (by decide)
  obtain ⟨st, ln, hget, hok1, hok2, hnone, hinact, ⟨r, hr, hrid, hrlen, hrstat⟩,
    hnoA, hnoAK, hsole, hconv, hlow, hhigh⟩ := h
  exact ⟨hok1, hok2, hnone, hnoA, (hsole 3 (by decide) (by decide)).1,
    ⟨r, hr, hrid, hrstat⟩⟩
